import Mathlib

/-!
A shallow embedding of the `bdf` crate (BDF bitmap-font reader/writer):
the record model, the bitmap bit-packing codec, the line tokenizer
(`Reader::entry`), the model assembler (`read`) and the serializer
(`Writer::entry` / `write`), together with theorems about them.

Machine integers are modelled as `Nat`/`Int`, with reduction modulo
`2 ^ 64` made explicit exactly where the Rust `u64` arithmetic can wrap.
Strings are modelled at Unicode-scalar granularity (`String.data`);
byte-level slice-boundary panics on non-ASCII input are not modelled.
A Rust panic is modelled as `Option.none` (for small helpers) or as an
explicit `panic` constructor of the result type (for the entry points).
-/

namespace Bdf

/-- Within namespaces such as `Property`, whose constructor `String`
shadows the string type, this abbreviation names the string type. -/
abbrev Str := String

/-- The direction of the glyph (`src/direction.rs`). -/
inductive Direction : Type where
  | Default
  | Alternate
  | Both
deriving DecidableEq, Repr, Inhabited

/-- Modelled from the spec: `bounding_box.rs` is not present under `src/`.
`{width, height: unsigned integer; x, y: signed integer}`, the pixel
extent and origin offset of a glyph or the font default. -/
structure BoundingBox : Type where
  width : Nat
  height : Nat
  x : Int
  y : Int
deriving DecidableEq, Repr, Inhabited

/-- The size of a font (`src/font.rs`, `Size`): point size and X/Y DPI,
all `u16` in the source. -/
structure Size : Type where
  pt : Nat
  x : Nat
  y : Nat
deriving DecidableEq, Repr, Inhabited

/-- The bitmap of a glyph (`src/bitmap.rs`): width, height, and the set
of set pixel positions encoded row-major as `y * width + x`. The
`bit_set::BitSet` field is a growable bit vector; it is modelled as the
bitmask `bits`, whose bit `p` is set iff position `p` is in the set
(`BitSet` equality is equality of the stored sets, i.e. of the masks). -/
structure Bitmap : Type where
  width : Nat
  height : Nat
  bits : Nat
deriving DecidableEq, Repr

/-- `Bitmap::new`: a bitmap of the given size with no bit set. -/
def Bitmap.new (width height : Nat) : Bitmap :=
  { width := width, height := height, bits := 0 }

instance : Inhabited Bitmap := ⟨Bitmap.new 0 0⟩

/-- `Bitmap::get`: reads a bit; out-of-bounds coordinates panic in the
source (`panic!("out of bounds")`), modelled as `none`. -/
def Bitmap.get (b : Bitmap) (x y : Nat) : Option Bool :=
  if y ≥ b.height ∨ x ≥ b.width then none
  else some (b.bits.testBit (y * b.width + x))

/-- `Bitmap::set`: writes a bit (`BitSet::insert` / `BitSet::remove`);
out-of-bounds coordinates panic in the source, modelled as `none`. -/
def Bitmap.set (b : Bitmap) (x y : Nat) (value : Bool) : Option Bitmap :=
  if y ≥ b.height ∨ x ≥ b.width then none
  else some { b with bits :=
    if value then b.bits ||| 2 ^ (y * b.width + x)
    else if b.bits.testBit (y * b.width + x) then b.bits - 2 ^ (y * b.width + x)
    else b.bits }

/-- The bitmask whose bit `p` (for `p < n`) is `f (p % w) (p / w)`. -/
def gridBits (w : Nat) (f : Nat → Nat → Bool) : Nat → Nat
  | 0 => 0
  | p + 1 => gridBits w f p ||| (if f (p % w) (p / w) then 2 ^ p else 0)

/-- The bitmap holding exactly the pixel assignment `f` on a
`width × height` grid: position `y * width + x` is set iff `f x y`.
This is the spec-side description of "an arbitrary bitmap built through
`Bitmap::new`/`Bitmap::set`". -/
def Bitmap.ofFn (width height : Nat) (f : Nat → Nat → Bool) : Bitmap :=
  { width := width, height := height, bits := gridBits width f (height * width) }

/-- A `Font` property (`src/font.rs`, `Property`): a signed 64-bit
integer or a string. -/
inductive Property : Type where
  | String (value : String)
  | Integer (value : Int)
deriving DecidableEq, Repr, Inhabited

/-- Modelled from the spec: `glyph.rs` is not present under `src/`.
A glyph has a name, a codepoint (a Unicode scalar, its collection key),
a required bounding box and bitmap (held as `Option` during two-phase
construction), a direction, and the four optional width pairs plus the
offset vector. -/
structure Glyph : Type where
  name : String
  codepoint : Char
  bounds : Option BoundingBox
  map : Option Bitmap
  direction : Direction
  scalable_width : Option (Nat × Nat)
  device_width : Option (Nat × Nat)
  alternate_scalable_width : Option (Nat × Nat)
  alternate_device_width : Option (Nat × Nat)
  vector : Option (Nat × Nat)
deriving DecidableEq

/-- Modelled from the spec: the default (under-construction) glyph, with
no field populated yet. -/
def Glyph.default : Glyph :=
  { name := "", codepoint := Char.ofNat 0, bounds := none, map := none,
    direction := Direction.Default, scalable_width := none, device_width := none,
    alternate_scalable_width := none, alternate_device_width := none, vector := none }

instance : Inhabited Glyph := ⟨Glyph.default⟩

/-- Modelled from the spec: `Glyph::validate` — "a finalized glyph must
pass its own validity check (minimally: bounding box and bitmap
present)". -/
def Glyph.validate (g : Glyph) : Bool :=
  g.bounds.isSome && g.map.isSome

/-- A BDF font (`src/font.rs`, `Font`). The `HashMap` property and glyph
tables are modelled as association lists (one possible iteration
order). -/
structure Font : Type where
  format : String
  name : Option String
  version : Option String
  size : Option Size
  bounds : Option BoundingBox
  direction : Direction
  scalable_width : Option (Nat × Nat)
  device_width : Option (Nat × Nat)
  alternate_scalable_width : Option (Nat × Nat)
  alternate_device_width : Option (Nat × Nat)
  vector : Option (Nat × Nat)
  properties : List (String × Property)
  glyphs : List (Char × Glyph)
deriving DecidableEq

/-- `Font::default`: format `"2.2"`, everything else absent/empty. -/
def Font.default : Font :=
  { format := "2.2", name := none, version := none, size := none, bounds := none,
    direction := Direction.Default, scalable_width := none, device_width := none,
    alternate_scalable_width := none, alternate_device_width := none, vector := none,
    properties := [], glyphs := [] }

instance : Inhabited Font := ⟨Font.default⟩

/-- `Font::validate`: name, size and bounds must all be present. -/
def Font.validate (f : Font) : Bool :=
  if f.name.isNone then false
  else if f.size.isNone then false
  else if f.bounds.isNone then false
  else true

/-- `HashMap::insert`: last write wins on a duplicate key, new keys are
appended. -/
def insertKV {κ α : Type} [DecidableEq κ] (k : κ) (v : α) :
    List (κ × α) → List (κ × α)
  | [] => [(k, v)]
  | p :: rest => if p.1 = k then (k, v) :: rest else p :: insertKV k v rest

/-- The possible entries in BDF (`src/font.rs`, `Entry`). -/
inductive Entry : Type where
  | StartFont (version : String)
  | Comment (body : String)
  | ContentVersion (version : String)
  | Font (name : String)
  | Size (pt x y : Nat)
  | Chars (count : Nat)
  | FontBoundingBox (bbx : BoundingBox)
  | EndFont
  | StartProperties (count : Nat)
  | Property (name : String) (value : Bdf.Property)
  | EndProperties
  | StartChar (name : String)
  | Encoding (codepoint : Char)
  | Direction (direction : Bdf.Direction)
  | ScalableWidth (x y : Nat)
  | DeviceWidth (x y : Nat)
  | AlternateScalableWidth (x y : Nat)
  | AlternateDeviceWidth (x y : Nat)
  | Vector (x y : Nat)
  | BoundingBox (bbx : Bdf.BoundingBox)
  | Bitmap (map : Bdf.Bitmap)
  | EndChar
  | Unknown (id : String)
deriving DecidableEq

/-- Errors for `Reader` and `Writer` (`src/error.rs`); the `IO` variant
(stream failure) is outside the model, and the `ParseIntError` payload
of `Parse` is dropped. -/
inductive Error : Type where
  | Parse (line_number : Nat) (line : String)
  | MissingVersion (line_number : Nat) (line : String)
  | MissingBoundingBox (line_number : Nat) (line : String)
  | MissingValue (property_name : String) (line_number : Nat)
  | InvalidCodepoint (line_number : Nat) (line : String)
  | End
  | MalformedFont
  | MalformedProperties
  | MalformedChar
deriving DecidableEq, Repr

/-! ## Character-list string helpers

`str::trim`, `str::find(' ')` and `str::split(' ')` from the tokenizer,
modelled on `List Char`. -/

/-- `str::trim`: strip leading and trailing whitespace. -/
def trimChars (l : List Char) : List Char :=
  ((l.dropWhile Char.isWhitespace).reverse.dropWhile Char.isWhitespace).reverse

/-- `str::split(' ')`: split at every single space, keeping empty
pieces (so `"".split(' ')` is `[""]`). -/
def splitSp : List Char → List (List Char)
  | [] => [[]]
  | c :: rest =>
    if c = ' ' then [] :: splitSp rest
    else match splitSp rest with
      | h :: t => (c :: h) :: t
      | [] => [[c]]

/-- `line.find(' ')` / slicing, from `Reader::entry`: split the line at
the first space into the identifier and the trimmed remainder
(`(&line[0..n], Some(line[n..].trim()))`); with no space the whole
trimmed line is the identifier. -/
def splitId (line : String) : String × Option String :=
  match line.data.findIdx? (· = ' ') with
  | some n => (⟨line.data.take n⟩, some ⟨trimChars (line.data.drop n)⟩)
  | none => (⟨trimChars line.data⟩, none)

/-! ## Integer parsing (`str::parse` / `from_str_radix`) -/

/-- The value of a decimal digit character, if it is one. -/
def digit? (c : Char) : Option Nat :=
  if '0' ≤ c ∧ c ≤ '9' then some (c.toNat - '0'.toNat) else none

/-- The value of a hexadecimal digit character (either case), if it is
one. -/
def hexDigit? (c : Char) : Option Nat :=
  if '0' ≤ c ∧ c ≤ '9' then some (c.toNat - '0'.toNat)
  else if 'a' ≤ c ∧ c ≤ 'f' then some (c.toNat - 'a'.toNat + 10)
  else if 'A' ≤ c ∧ c ≤ 'F' then some (c.toNat - 'A'.toNat + 10)
  else none

/-- Accumulate digits left to right in the given base; `none` on the
first non-digit. -/
def digitsVal (base : Nat) (dig : Char → Option Nat) : List Char → Nat → Option Nat
  | [], acc => some acc
  | c :: rest, acc =>
    match dig c with
    | some d => digitsVal base dig rest (acc * base + d)
    | none => none

/-- Strip the optional leading `+` sign `str::parse` accepts for
unsigned integer types. -/
def stripPlus : List Char → List Char
  | [] => []
  | c :: rest => if c = '+' then rest else c :: rest

/-- `str::parse` for an unsigned integer type with exclusive upper bound
`bound`: an optional `+` sign, then at least one decimal digit; an
out-of-range value is an error (Rust reports overflow). -/
def parseU (bound : Nat) (s : String) : Option Nat :=
  let l := stripPlus s.data
  if l.isEmpty then none
  else match digitsVal 10 digit? l 0 with
    | some v => if v < bound then some v else none
    | none => none

/-- `str::parse` for a signed integer type with magnitude bound `bound`
(the represented range is `[-bound, bound)`): an optional sign, then at
least one decimal digit. -/
def parseI (bound : Nat) (s : String) : Option Int :=
  let (neg, l) : Bool × List Char := match s.data with
    | '+' :: rest => (false, rest)
    | '-' :: rest => (true, rest)
    | l => (false, l)
  if l.isEmpty then none
  else match digitsVal 10 digit? l 0 with
    | some v =>
      if neg then (if v ≤ bound then some (-(v : Int)) else none)
      else (if v < bound then some (v : Int) else none)
    | none => none

/-- `u64::from_str_radix(s, 16)`: an optional `+` sign, then at least
one hexadecimal digit of either case; overflow past `u64::MAX` is an
error. -/
def fromStrRadix16 (s : String) : Option Nat :=
  let l := stripPlus s.data
  if l.isEmpty then none
  else match digitsVal 16 hexDigit? l 0 with
    | some v => if v < 2 ^ 64 then some v else none
    | none => none

/-! ## Hexadecimal rendering (`format!("{:0>1$X}", value, hex_width)`) -/

/-- The uppercase hexadecimal digit character for `d < 16`. -/
def hexChar (d : Nat) : Char :=
  if d < 10 then Char.ofNat ('0'.toNat + d) else Char.ofNat ('A'.toNat + d - 10)

/-- The uppercase hexadecimal digits of `n`, most significant first
(empty for `0`), with an explicit recursion bound (`n` itself always
suffices, see `toHexCore`). -/
def toHexAux : Nat → Nat → List Char
  | 0, _ => []
  | fuel + 1, n =>
    if n = 0 then [] else toHexAux fuel (n / 16) ++ [hexChar (n % 16)]

/-- The uppercase hexadecimal digits of `n`, most significant first
(empty for `0`). -/
def toHexCore (n : Nat) : List Char :=
  toHexAux n n

/-- The uppercase hexadecimal rendering of `n` (`"0"` for `0`). -/
def toHexUpper (n : Nat) : List Char :=
  if n = 0 then ['0'] else toHexCore n

/-- Left-pad with `'0'` to a minimum width (the `0>` fill of the format
string). -/
def padLeft0 (k : Nat) (l : List Char) : List Char :=
  List.replicate (k - l.length) '0' ++ l

/-! ## Property parsing (`src/font.rs`, `impl Property`) -/

/-- `Property::extract`: `string[1..string.len() - 1].replace("\"\"", "\"")`.
The slice panics (`none`) unless the string has at least two characters;
otherwise the first and last characters are dropped and doubled quotes
are collapsed. -/
def Property.extract (s : Str) : Option Str :=
  if s.data.length < 2 then none
  else some ⟨unescapeQuotes ((s.data.drop 1).dropLast)⟩
where
  /-- `str::replace("\"\"", "\"")`: left-to-right, non-overlapping. -/
  unescapeQuotes : List Char → List Char
    | '"' :: '"' :: rest => '"' :: unescapeQuotes rest
    | c :: rest => c :: unescapeQuotes rest
    | [] => []

/-- `Property::parse`: a leading `"` means a (quoted) string, otherwise
try `i64` first and fall back to the bare string. `none` models the
panic `extract` can raise on a short quoted value. -/
def Property.parse (s : Str) : Option Property :=
  if s.data.head? = some '"' then (Property.extract s).map Property.String
  else match parseI (2 ^ 63) s with
    | some n => some (Property.Integer n)
    | none => some (Property.String s)

/-! ## The font reader (`src/reader.rs`) -/

/-- The font reader: processed-line counter, the remaining input lines,
and the two pieces of cross-record bounding-box state (`default` from
`FONTBOUNDINGBOX`, `current` from `BBX`). The byte stream is modelled as
the list of its lines. -/
structure Reader : Type where
  line_number : Nat
  stream : List String
  default : Option BoundingBox
  current : Option BoundingBox
deriving DecidableEq

/-- `Reader::from` / `reader::new`. -/
def Reader.from (stream : List String) : Reader :=
  { line_number := 0, stream := stream, default := none, current := none }

/-- The loop at the head of `Reader::entry`: pop lines (incrementing the
line counter) until a non-empty one; `none` on end of stream. -/
def popLine : List String → Nat → Option (String × List String × Nat)
  | [], _ => none
  | l :: ls, n => if l = "" then popLine ls (n + 1) else some (l, ls, n + 1)

/-- The result of `Reader::entry`: the parsed entry or the error,
together with the reader state the call leaves behind, or a panic. -/
inductive EntryResult : Type where
  | ok (e : Entry) (r : Reader)
  | err (e : Error) (r : Reader)
  | panicked
deriving DecidableEq

/-- The result of the `BITMAP` row-decoding loop: the decoded bitmap, a
hex-parse failure (with the number of row lines consumed up to and
including the offending one), or a panic from `Bitmap::set`. -/
inductive DecRes : Type where
  | ok (m : Bitmap)
  | parseFail (consumed : Nat)
  | panicked
deriving DecidableEq

/-- The inner loop of the `BITMAP` arm for one row value `v`:
`for x in 0..width { map.set(width - x - 1, y, ((row >> x) & 1) == 1) }`,
here applied for `x` from `0` to `k - 1`. -/
def setRow (w y v : Nat) (m : Bitmap) : Nat → Option Bitmap
  | 0 => some m
  | k + 1 => (setRow w y v m k).bind fun m2 =>
      m2.set (w - k - 1) y (((v >>> k) &&& 1) == 1)

/-- The row loop of the `BITMAP` arm over the taken row lines, with `y`
the index of the next row: each line is parsed as `u64` hex, shifted
right by `(8 - (width % 8)) % 8` padding bits, and written into the
bitmap. -/
def decodeRows (w : Nat) : List String → Nat → Bitmap → DecRes
  | [], _, m => .ok m
  | s :: ss, y, m =>
    match fromStrRadix16 s with
    | none => .parseFail 1
    | some v =>
      match setRow w y (v >>> ((8 - w % 8) % 8)) m w with
      | none => .panicked
      | some m2 =>
        match decodeRows w ss (y + 1) m2 with
        | .parseFail k => .parseFail (k + 1)
        | res => res

/-- The bitmap codec's decode, exactly as the `BITMAP` arm of
`Reader::entry` runs it: take (at most) `height` further lines as hex
rows and fold them into a fresh `width × height` bitmap. -/
def decodeBitmap (width height : Nat) (rows : List String) : DecRes :=
  decodeRows width (rows.take height) 0 (Bitmap.new width height)

/-- The cross-record bounding-box state update an entry performs
(`self.default = Some(bbx)` in the `FONTBOUNDINGBOX` arm,
`self.current = Some(bbx)` in the `BBX` arm). -/
inductive BoxUpd : Type where
  | keep
  | setDefault (bbx : BoundingBox)
  | setCurrent (bbx : BoundingBox)
deriving DecidableEq

/-- Apply a `BoxUpd` to the reader state. -/
def applyUpd (u : BoxUpd) (r : Reader) : Reader :=
  match u with
  | .keep => r
  | .setDefault bbx => { r with default := some bbx }
  | .setCurrent bbx => { r with current := some bbx }

/-- Result of a non-`BITMAP` dispatch arm: an entry (with its state
update), an error, or a panic. -/
inductive SRes : Type where
  | ok (e : Entry) (u : BoxUpd)
  | err (e : Error)
  | panicked
deriving DecidableEq

/-- The common shape of the `SWIDTH`/`DWIDTH`/`SWIDTH1`/`DWIDTH1`/
`VVECTOR` arms: two space-separated `u32` fields. -/
def pairArm (ctor : Nat → Nat → Entry) (id : Str) (rest : Option Str)
    (line : Str) (line_number : Nat) : SRes :=
  match rest with
  | some rest =>
    match splitSp rest.data with
    | [a, b] =>
      match parseU (2 ^ 32) ⟨a⟩, parseU (2 ^ 32) ⟨b⟩ with
      | some x, some y => .ok (ctor x y) .keep
      | _, _ => .err (.Parse line_number line)
    | _ => .err (.MissingValue id line_number)
  | none => .err (.MissingValue id line_number)

/-- The common shape of the `FONTBOUNDINGBOX` and `BBX` arms: four
space-separated fields (`u32 u32 i32 i32`); on success the given
state-update constructor records the box. -/
def bbxArm (ctor : BoundingBox → Entry) (upd : BoundingBox → BoxUpd) (id : Str)
    (rest : Option Str) (line : Str) (line_number : Nat) : SRes :=
  match rest with
  | some rest =>
    match splitSp rest.data with
    | [a, b, c, d] =>
      match parseU (2 ^ 32) ⟨a⟩, parseU (2 ^ 32) ⟨b⟩,
            parseI (2 ^ 31) ⟨c⟩, parseI (2 ^ 31) ⟨d⟩ with
      | some w, some h, some x, some y => .ok (ctor ⟨w, h, x, y⟩) (upd ⟨w, h, x, y⟩)
      | _, _, _, _ => .err (.Parse line_number line)
    | _ => .err (.MissingValue id line_number)
  | none => .err (.MissingValue id line_number)

/-- Every dispatch arm of `Reader::entry` except `BITMAP` (none of these
touches the stream; `FONTBOUNDINGBOX`/`BBX` record their box through the
returned `BoxUpd`). -/
def simpleArm (id : Str) (rest : Option Str) (line : Str) (line_number : Nat) : SRes :=
  match id with
  | "COMMENT" =>
    match rest with
    | some rest =>
      match Property.extract rest with
      | some s => .ok (.Comment s) .keep
      | none => .panicked
    | none => .ok (.Comment "") .keep
  | "STARTFONT" =>
    match rest with
    | some rest => .ok (.StartFont rest) .keep
    | none => .err (.MissingVersion line_number line)
  | "FONT" =>
    match rest with
    | some rest => .ok (.Font rest) .keep
    | none => .err (.MissingValue "FONT" line_number)
  | "SIZE" =>
    match rest with
    | some rest =>
      match splitSp rest.data with
      | [a, b, c] =>
        match parseU (2 ^ 16) ⟨a⟩, parseU (2 ^ 16) ⟨b⟩, parseU (2 ^ 16) ⟨c⟩ with
        | some pt, some x, some y => .ok (.Size pt x y) .keep
        | _, _, _ => .err (.Parse line_number line)
      | _ => .err (.MissingValue id line_number)
    | none => .err (.MissingValue id line_number)
  | "FONTBOUNDINGBOX" => bbxArm .FontBoundingBox .setDefault id rest line line_number
  | "CONTENTVERSION" =>
    match rest with
    | some rest => .ok (.ContentVersion rest) .keep
    | none => .err (.MissingValue id line_number)
  | "CHARS" =>
    match rest with
    | some rest =>
      match parseU (2 ^ 64) rest with
      | some n => .ok (.Chars n) .keep
      | none => .err (.Parse line_number line)
    | none => .err (.MissingValue id line_number)
  | "STARTCHAR" =>
    match rest with
    | some rest => .ok (.StartChar rest) .keep
    | none => .err (.MissingValue id line_number)
  | "ENCODING" =>
    match rest with
    | some rest =>
      match parseU (2 ^ 32) rest with
      | some n =>
        if n.isValidChar then .ok (.Encoding (Char.ofNat n)) .keep
        else .err (.InvalidCodepoint line_number line)
      | none => .err (.InvalidCodepoint line_number line)
    | none => .err (.MissingValue id line_number)
  | "METRICSSET" =>
    match rest with
    | some rest =>
      match rest with
      | "0" => .ok (.Direction .Default) .keep
      | "1" => .ok (.Direction .Alternate) .keep
      | "2" => .ok (.Direction .Both) .keep
      | _ => .err (.MissingValue id line_number)
    | none => .err (.MissingValue id line_number)
  | "SWIDTH" => pairArm .ScalableWidth id rest line line_number
  | "DWIDTH" => pairArm .DeviceWidth id rest line line_number
  | "SWIDTH1" => pairArm .AlternateScalableWidth id rest line line_number
  | "DWIDTH1" => pairArm .AlternateDeviceWidth id rest line line_number
  | "VVECTOR" => pairArm .Vector id rest line line_number
  | "BBX" => bbxArm .BoundingBox .setCurrent id rest line line_number
  | "ENDCHAR" => .ok .EndChar .keep
  | "ENDFONT" => .ok .EndFont .keep
  | "STARTPROPERTIES" =>
    match rest with
    | some rest =>
      match parseU (2 ^ 64) rest with
      | some n => .ok (.StartProperties n) .keep
      | none => .err (.Parse line_number line)
    | none => .err (.MissingValue id line_number)
  | "ENDPROPERTIES" => .ok .EndProperties .keep
  | _ =>
    match rest with
    | some rest =>
      match Property.parse rest with
      | some p => .ok (.Property id p) .keep
      | none => .panicked
    | none => .ok (.Unknown id) .keep

/-- The `BITMAP` arm once the active `width`/`height` have been chosen:
take `height` rows, advance the line counter by `height`, decode; on
success the character-scope box is cleared, on a hex-parse failure the
error carries the post-advance line number and the `BITMAP` line's
text. -/
def bitmapWith (width height : Nat) (line : Str) (r : Reader) : EntryResult :=
  match decodeBitmap width height r.stream with
  | .ok m => .ok (.Bitmap m)
      { r with stream := r.stream.drop height,
               line_number := r.line_number + height, current := none }
  | .parseFail k => .err (.Parse (r.line_number + height) line)
      { r with stream := r.stream.drop k, line_number := r.line_number + height }
  | .panicked => .panicked

/-- The `BITMAP` arm of `Reader::entry`: the active box is the
character-scope `current` box, else the font-level `default` box, else
the call fails with `MissingBoundingBox`. -/
def bitmapArm (line : Str) (r : Reader) : EntryResult :=
  match r.current with
  | some bbx => bitmapWith bbx.width bbx.height line r
  | none =>
    match r.default with
    | some bbx => bitmapWith bbx.width bbx.height line r
    | none => .err (.MissingBoundingBox r.line_number line) r

/-- Dispatch one non-empty line (`Reader::entry` after the line fetch):
split at the first space and dispatch on the identifier. -/
def dispatch (line : Str) (r : Reader) : EntryResult :=
  let (id, rest) := splitId line
  if id = "BITMAP" then bitmapArm line r
  else
    match simpleArm id rest line r.line_number with
    | .ok e u => .ok e (applyUpd u r)
    | .err e => .err e r
    | .panicked => .panicked

/-- `Reader::entry`: fetch the next non-empty line (`Error::End` when
the stream is exhausted) and dispatch it. -/
def Reader.entry (r : Reader) : EntryResult :=
  match popLine r.stream r.line_number with
  | none => .err .End { r with stream := [], line_number := r.line_number + r.stream.length }
  | some (line, rest, n) => dispatch line { r with stream := rest, line_number := n }

/-! ## Stream-consumption bounds

`Reader::entry` consumes at least one line whenever it yields an entry
or an `InvalidCodepoint` error; the `read` loop below recurses exactly
in those two cases, so these bounds justify its termination. -/

/-- The reader a dispatch arm leaves behind never has more input than it
started with. -/
def resLE (res : EntryResult) (r : Reader) : Prop :=
  match res with
  | .ok _ r2 => r2.stream.length ≤ r.stream.length
  | .err _ r2 => r2.stream.length ≤ r.stream.length
  | .panicked => True

theorem popLine_len {ls : List String} {n : Nat} {l : String} {rest : List String}
    {n2 : Nat} (h : popLine ls n = some (l, rest, n2)) : rest.length < ls.length := by
  induction ls generalizing n with
  | nil => simp [popLine] at h
  | cons a as ih =>
    rw [popLine] at h
    by_cases ha : a = ""
    · rw [if_pos ha] at h
      exact Nat.lt_trans (ih h) (by simp)
    · rw [if_neg ha] at h
      cases h
      simp

theorem applyUpd_stream (u : BoxUpd) (r : Reader) : (applyUpd u r).stream = r.stream := by
  cases u <;> rfl

theorem bitmapWith_le (w h : Nat) (line : Str) (r : Reader) :
    resLE (bitmapWith w h line r) r := by
  unfold bitmapWith
  split <;> simp [resLE]

theorem bitmapArm_le (line : Str) (r : Reader) : resLE (bitmapArm line r) r := by
  unfold bitmapArm
  split
  · exact bitmapWith_le ..
  · split
    · exact bitmapWith_le ..
    · simp [resLE]

theorem dispatch_le (line : Str) (r : Reader) : resLE (dispatch line r) r := by
  unfold dispatch
  rcases hsp : splitId line with ⟨id, rest⟩
  dsimp only
  split
  · exact bitmapArm_le ..
  · split <;> simp [resLE, applyUpd_stream]

theorem entry_ok_lt {r : Reader} {e : Entry} {r2 : Reader}
    (h : r.entry = .ok e r2) : r2.stream.length < r.stream.length := by
  unfold Reader.entry at h
  split at h
  · exact absurd h (by simp)
  · rename_i line rest n hp
    have hle := dispatch_le line { r with stream := rest, line_number := n }
    rw [h] at hle
    exact Nat.lt_of_le_of_lt hle (popLine_len hp)

theorem entry_err_le {r : Reader} {e : Error} {r2 : Reader}
    (h : r.entry = .err e r2) (hne : e ≠ .End) : r2.stream.length < r.stream.length := by
  unfold Reader.entry at h
  split at h
  · obtain ⟨he, -⟩ := EntryResult.err.injEq .. ▸ h
    exact absurd he.symm hne
  · rename_i line rest n hp
    have hle := dispatch_le line { r with stream := rest, line_number := n }
    rw [h] at hle
    exact Nat.lt_of_le_of_lt hle (popLine_len hp)

/-! ## The model assembler (`read`, `src/reader.rs`) -/

/-- The result of `read` / `write`: a value, an error, or a panic. -/
inductive RRes (α : Type) : Type where
  | ok (a : α)
  | err (e : Error)
  | panicked
deriving DecidableEq

/-- The local state of the `read` loop: the font under construction, the
scope flags, the skip flag set by an invalid codepoint, and the glyph
under construction. -/
structure LoopState : Type where
  font : Font
  in_font : Bool
  in_props : Bool
  in_char : Bool
  skip_current_char : Bool
  glyph : Glyph
deriving DecidableEq

/-- The state the `read` loop starts in. -/
def LoopState.init : LoopState :=
  { font := Font.default, in_font := false, in_props := false, in_char := false,
    skip_current_char := false, glyph := Glyph.default }

/-- What one iteration of the `read` loop does with a successfully
parsed entry. -/
inductive StepRes : Type where
  | cont (st : LoopState)
  | done (f : Font)
  | fail (e : Error)
deriving DecidableEq

/-- The body of the `read` loop for one entry, mirroring its sequence of
`if let` / `match` blocks. -/
def readStep (st : LoopState) (e : Entry) : StepRes :=
  if st.in_font then
    match e with
    | .EndFont =>
      if st.in_char then .fail .MalformedChar
      else if st.in_props then .fail .MalformedProperties
      else if !st.font.validate then .fail .MalformedFont
      else .done st.font
    | .StartProperties _ =>
      if st.in_char then .fail .MalformedChar
      else .cont { st with in_props := true }
    | e =>
      if st.in_props then
        match e with
        | .EndProperties => .cont { st with in_props := false }
        | .Property name value =>
          .cont { st with font := { st.font with
            properties := insertKV name value st.font.properties } }
        | _ => .fail .MalformedProperties
      else
        match e with
        | .StartChar name =>
          .cont { st with glyph := { st.glyph with name := name }, in_char := true }
        | e =>
          if st.in_char then
            match e with
            | .EndChar =>
              if st.skip_current_char then
                .cont { st with skip_current_char := false, in_char := false,
                                glyph := Glyph.default }
              else if !st.glyph.validate then .fail .MalformedChar
              else
                .cont { st with
                  font := { st.font with
                    glyphs := insertKV st.glyph.codepoint st.glyph st.font.glyphs },
                  in_char := false, glyph := Glyph.default }
            | .Encoding codepoint => .cont { st with glyph := { st.glyph with codepoint } }
            | .ScalableWidth x y =>
              .cont { st with glyph := { st.glyph with scalable_width := some (x, y) } }
            | .DeviceWidth x y =>
              .cont { st with glyph := { st.glyph with device_width := some (x, y) } }
            | .AlternateScalableWidth x y =>
              .cont { st with glyph := { st.glyph with alternate_scalable_width := some (x, y) } }
            | .AlternateDeviceWidth x y =>
              .cont { st with glyph := { st.glyph with alternate_device_width := some (x, y) } }
            | .Vector x y =>
              .cont { st with glyph := { st.glyph with vector := some (x, y) } }
            | .BoundingBox bbx =>
              .cont { st with glyph := { st.glyph with bounds := some bbx } }
            | .Bitmap map =>
              .cont { st with glyph := { st.glyph with map := some map } }
            | _ => .fail .MalformedChar
          else
            match e with
            | .Comment _ => .cont st
            | .Chars _ => .cont st
            | .ContentVersion version =>
              .cont { st with font := { st.font with version := some version } }
            | .Font name => .cont { st with font := { st.font with name := some name } }
            | .Size pt x y =>
              .cont { st with font := { st.font with size := some ⟨pt, x, y⟩ } }
            | .FontBoundingBox bbx =>
              .cont { st with font := { st.font with bounds := some bbx } }
            | .ScalableWidth x y =>
              .cont { st with font := { st.font with scalable_width := some (x, y) } }
            | .DeviceWidth x y =>
              .cont { st with font := { st.font with device_width := some (x, y) } }
            | .AlternateScalableWidth x y =>
              .cont { st with font := { st.font with alternate_scalable_width := some (x, y) } }
            | .AlternateDeviceWidth x y =>
              .cont { st with font := { st.font with alternate_device_width := some (x, y) } }
            | .Vector x y =>
              .cont { st with font := { st.font with vector := some (x, y) } }
            | _ => .fail .MalformedFont
  else
    match e with
    | .Comment _ => .cont st
    | .StartFont format =>
      .cont { st with font := { st.font with format }, in_font := true }
    | _ => .fail .MalformedFont

/-- The `read` loop: fetch entries until the font is finalized or an
error propagates; an `InvalidCodepoint` error only sets the skip flag
and continues. -/
def readLoop (st : LoopState) (r : Reader) : RRes Font :=
  match h : r.entry with
  | .panicked => .panicked
  | .err (.InvalidCodepoint _ _) r2 =>
    readLoop { st with skip_current_char := true } r2
  | .err e _ => .err e
  | .ok e r2 =>
    match readStep st e with
    | .cont st2 => readLoop st2 r2
    | .done f => .ok f
    | .fail er => .err er
termination_by r.stream.length
decreasing_by
  · exact entry_err_le h (by simp)
  · exact entry_ok_lt h

/-- `read`: assemble a font from a stream of lines. -/
def read (lines : List String) : RRes Font :=
  readLoop LoopState.init (Reader.from lines)

/-- `readLoop` with an explicit recursion bound, used to evaluate `read`
on concrete inputs: any bound exceeding the number of remaining input
lines gives the same result (`readLoopF_eq`). -/
def readLoopF : Nat → LoopState → Reader → RRes Font
  | 0, _, _ => .panicked
  | n + 1, st, r =>
    match r.entry with
    | .panicked => .panicked
    | .err (.InvalidCodepoint _ _) r2 =>
      readLoopF n { st with skip_current_char := true } r2
    | .err e _ => .err e
    | .ok e r2 =>
      match readStep st e with
      | .cont st2 => readLoopF n st2 r2
      | .done f => .ok f
      | .fail er => .err er

theorem readLoopF_eq (n : Nat) (st : LoopState) (r : Reader)
    (h : r.stream.length < n) : readLoopF n st r = readLoop st r := by
  induction n generalizing st r with
  | zero => omega
  | succ n ih =>
    rw [readLoop, readLoopF]
    cases he : r.entry with
    | panicked => rfl
    | ok e r2 =>
      have hlt := entry_ok_lt he
      cases hs : readStep st e with
      | cont st2 =>
        simp only [hs]
        exact ih st2 r2 (by omega)
      | done f => simp only [hs]
      | fail er => simp only [hs]
    | err e r2 =>
      cases e with
      | InvalidCodepoint ln l =>
        have hlt := entry_err_le he (by simp)
        dsimp only
        exact ih _ r2 (by omega)
      | _ => rfl

theorem read_eq_readLoopF (lines : List String) :
    read lines = readLoopF (lines.length + 1) LoopState.init (Reader.from lines) :=
  (readLoopF_eq _ _ _ (by simp [Reader.from])).symm

/-! ## The font writer (`src/writer/mod.rs`)

Each `write!` of the source emits exactly one `\n`-terminated line, so
the written byte stream is modelled as the list of its lines. -/

/-- `str::replace("\"", "\"\"")`: double every quote character. -/
def escapeQuotes : List Char → List Char
  | [] => []
  | c :: rest =>
    if c = '"' then '"' :: '"' :: escapeQuotes rest
    else c :: escapeQuotes rest

/-- The `u64` accumulation of one bitmap row in the `Entry::Bitmap` arm
(`value <<= 1; value |= map.get(x, y) as u64` for `x` in `0..k`);
`none` if a `get` panics. -/
def encodeRowVal (m : Bitmap) (y : Nat) : Nat → Option Nat
  | 0 => some 0
  | k + 1 => (encodeRowVal m y k).bind fun v =>
      (m.get k y).map fun b => v * 2 % 2 ^ 64 ||| (if b then 1 else 0)

/-- One rendered bitmap row: the row value, left-shifted by
`(-(width as i32)).rem_euclid(8)` padding bits, rendered as uppercase
hexadecimal zero-padded to `(width + 7) >> 3 << 1` digits. -/
def encodeRow (m : Bitmap) (y : Nat) : Option String :=
  (encodeRowVal m y m.width).map fun v =>
    ⟨padLeft0 ((m.width + 7) >>> 3 <<< 1)
      (toHexUpper (v <<< (-(m.width : Int) % 8).toNat % 2 ^ 64))⟩

/-- The rendered rows `0..k` of a bitmap. -/
def encodeRows (m : Bitmap) : Nat → Option (List String)
  | 0 => some []
  | k + 1 =>
    match encodeRows m k, encodeRow m k with
    | some rs, some r => some (rs ++ [r])
    | _, _ => none

/-- The bitmap codec's encode, exactly as the `Entry::Bitmap` arm of
`Writer::entry` runs it (the `BITMAP` marker line excluded): one
uppercase hex row per scanline, top to bottom. -/
def encodeBitmap (m : Bitmap) : Option (List String) :=
  encodeRows m m.height

/-- `Writer::entry`: the lines one entry writes; `none` models the
`unreachable!()` panic on `Entry::Unknown` (and a bitmap `get` panic). -/
def Writer.entryLines : Entry → Option (List String)
  | .StartFont string => some ["STARTFONT " ++ string]
  | .Comment string => some ["COMMENT \"" ++ ⟨escapeQuotes string.data⟩ ++ "\""]
  | .ContentVersion string => some ["CONTENTVERSION " ++ string]
  | .Font string => some ["FONT " ++ string]
  | .Size pt x y => some ["SIZE " ++ toString pt ++ " " ++ toString x ++ " " ++ toString y]
  | .Chars chars => some ["CHARS " ++ toString chars]
  | .FontBoundingBox bbx => some ["FONTBOUNDINGBOX " ++ toString bbx.width ++ " " ++
      toString bbx.height ++ " " ++ toString bbx.x ++ " " ++ toString bbx.y]
  | .EndFont => some ["ENDFONT"]
  | .StartProperties len => some ["STARTPROPERTIES " ++ toString len]
  | .Property name value =>
    match value with
    | .String string => some [name ++ " \"" ++ ⟨escapeQuotes string.data⟩ ++ "\""]
    | .Integer value => some [name ++ " " ++ toString value]
  | .EndProperties => some ["ENDPROPERTIES"]
  | .StartChar name => some ["STARTCHAR " ++ name]
  | .Encoding value => some ["ENCODING " ++ toString value.toNat]
  | .Direction direction =>
    match direction with
    | .Default => some ["METRICSSET 0"]
    | .Alternate => some ["METRICSSET 1"]
    | .Both => some ["METRICSSET 2"]
  | .ScalableWidth x y => some ["SWIDTH " ++ toString x ++ " " ++ toString y]
  | .DeviceWidth x y => some ["DWIDTH " ++ toString x ++ " " ++ toString y]
  | .AlternateScalableWidth x y => some ["SWIDTH1 " ++ toString x ++ " " ++ toString y]
  | .AlternateDeviceWidth x y => some ["DWIDTH1 " ++ toString x ++ " " ++ toString y]
  | .Vector x y => some ["VVECTOR " ++ toString x ++ " " ++ toString y]
  | .BoundingBox bbx => some ["BBX " ++ toString bbx.width ++ " " ++
      toString bbx.height ++ " " ++ toString bbx.x ++ " " ++ toString bbx.y]
  | .Bitmap map => (encodeBitmap map).map fun rows => "BITMAP" :: rows
  | .EndChar => some ["ENDCHAR"]
  | .Unknown _ => none

/-- An optional width/vector pair entry, emitted only when present. -/
def optEntry (ctor : Nat → Nat → Entry) : Option (Nat × Nat) → List Entry
  | some (x, y) => [ctor x y]
  | none => []

/-- The entries `write` emits for one glyph (keyed by its codepoint). -/
def glyphEntries (codepoint : Char) (glyph : Glyph) : List Entry :=
  [.StartChar glyph.name, .Encoding codepoint]
  ++ (if glyph.direction ≠ .Default then [.Direction glyph.direction] else [])
  ++ optEntry .ScalableWidth glyph.scalable_width
  ++ optEntry .DeviceWidth glyph.device_width
  ++ optEntry .AlternateScalableWidth glyph.alternate_scalable_width
  ++ optEntry .AlternateDeviceWidth glyph.alternate_device_width
  ++ optEntry .Vector glyph.vector
  ++ [.BoundingBox (glyph.bounds.getD ⟨0, 0, 0, 0⟩),
      .Bitmap (glyph.map.getD (Bitmap.new 0 0)), .EndChar]

/-- The full entry sequence `write` emits for a validated font, in its
canonical order. The `unwrap`s of the source (`font.name()` etc.) cannot
fire after validation; they are modelled by `Option.getD`. -/
def fontEntries (font : Font) : List Entry :=
  [.StartFont font.format, .Font (font.name.getD ""),
   .Size (font.size.getD ⟨0, 0, 0⟩).pt (font.size.getD ⟨0, 0, 0⟩).x
     (font.size.getD ⟨0, 0, 0⟩).y]
  ++ (match font.version with
      | some version => [.ContentVersion version]
      | none => [])
  ++ [.FontBoundingBox (font.bounds.getD ⟨0, 0, 0, 0⟩)]
  ++ (if font.direction ≠ .Default then [.Direction font.direction] else [])
  ++ optEntry .ScalableWidth font.scalable_width
  ++ optEntry .DeviceWidth font.device_width
  ++ optEntry .AlternateScalableWidth font.alternate_scalable_width
  ++ optEntry .AlternateDeviceWidth font.alternate_device_width
  ++ optEntry .Vector font.vector
  ++ (if font.properties.isEmpty then []
      else [.StartProperties font.properties.length]
        ++ font.properties.map (fun p => .Property p.1 p.2)
        ++ [.EndProperties])
  ++ [.Chars font.glyphs.length]
  ++ (font.glyphs.map fun cg => glyphEntries cg.1 cg.2).flatten
  ++ [.EndFont]

/-- `write`: pre-flight validity checks on the font and on every glyph,
then the canonical entry sequence rendered to lines. -/
def write (font : Font) : RRes (List String) :=
  if !font.validate then .err .MalformedFont
  else if font.glyphs.any (fun cg => !cg.2.validate) then .err .MalformedChar
  else
    match (fontEntries font).mapM Writer.entryLines with
    | some liness => .ok liness.flatten
    | none => .panicked

/-! ## Claim C4: out-of-bounds bitmap access -/

/-- C4: for every `Bitmap` and every coordinate with `x ≥ width` or
`y ≥ height`, both `Bitmap::get` and `Bitmap::set` take the
contract-violation (panic) branch — modelled as `none` — and never
return a value. -/
theorem C4_bitmap_oob_panics (b : Bitmap) (x y : Nat) (value : Bool)
    (h : x ≥ b.width ∨ y ≥ b.height) :
    b.get x y = none ∧ b.set x y value = none := by
  have h2 : y ≥ b.height ∨ x ≥ b.width := h.symm
  exact ⟨by rw [Bitmap.get, if_pos h2], by rw [Bitmap.set, if_pos h2]⟩

/-- Witness for C4 at a concrete bitmap and coordinates. -/
theorem C4_bitmap_oob_panics_witness :
    (2 ≥ (Bitmap.new 2 3).width ∨ 0 ≥ (Bitmap.new 2 3).height) ∧
    (Bitmap.new 2 3).get 2 0 = none ∧ (Bitmap.new 2 3).set 2 0 true = none :=
  ⟨by decide, C4_bitmap_oob_panics (Bitmap.new 2 3) 2 0 true (by decide)⟩

/-! ## Claim C7: `STARTFONT` missing version vs generic missing value -/

/-- C7: `STARTFONT` with no remainder fails with the distinct
`MissingVersion` error, while every other value-requiring identifier
(`FONT`, `SIZE`, `FONTBOUNDINGBOX`, `CONTENTVERSION`, `CHARS`,
`STARTCHAR`, `ENCODING`, `METRICSSET`, the width/vector pairs, `BBX`,
`STARTPROPERTIES`) fails with the generic `MissingValue` error naming
the identifier. -/
theorem C7_missing_version_distinct :
    (Reader.from ["STARTFONT"]).entry = .err (.MissingVersion 1 "STARTFONT") ⟨1, [], none, none⟩
    ∧ (Reader.from ["FONT"]).entry = .err (.MissingValue "FONT" 1) ⟨1, [], none, none⟩
    ∧ (Reader.from ["SIZE"]).entry = .err (.MissingValue "SIZE" 1) ⟨1, [], none, none⟩
    ∧ (Reader.from ["FONTBOUNDINGBOX"]).entry
        = .err (.MissingValue "FONTBOUNDINGBOX" 1) ⟨1, [], none, none⟩
    ∧ (Reader.from ["CONTENTVERSION"]).entry
        = .err (.MissingValue "CONTENTVERSION" 1) ⟨1, [], none, none⟩
    ∧ (Reader.from ["CHARS"]).entry = .err (.MissingValue "CHARS" 1) ⟨1, [], none, none⟩
    ∧ (Reader.from ["STARTCHAR"]).entry = .err (.MissingValue "STARTCHAR" 1) ⟨1, [], none, none⟩
    ∧ (Reader.from ["ENCODING"]).entry = .err (.MissingValue "ENCODING" 1) ⟨1, [], none, none⟩
    ∧ (Reader.from ["METRICSSET"]).entry = .err (.MissingValue "METRICSSET" 1) ⟨1, [], none, none⟩
    ∧ (Reader.from ["SWIDTH"]).entry = .err (.MissingValue "SWIDTH" 1) ⟨1, [], none, none⟩
    ∧ (Reader.from ["DWIDTH"]).entry = .err (.MissingValue "DWIDTH" 1) ⟨1, [], none, none⟩
    ∧ (Reader.from ["SWIDTH1"]).entry = .err (.MissingValue "SWIDTH1" 1) ⟨1, [], none, none⟩
    ∧ (Reader.from ["DWIDTH1"]).entry = .err (.MissingValue "DWIDTH1" 1) ⟨1, [], none, none⟩
    ∧ (Reader.from ["VVECTOR"]).entry = .err (.MissingValue "VVECTOR" 1) ⟨1, [], none, none⟩
    ∧ (Reader.from ["BBX"]).entry = .err (.MissingValue "BBX" 1) ⟨1, [], none, none⟩
    ∧ (Reader.from ["STARTPROPERTIES"]).entry
        = .err (.MissingValue "STARTPROPERTIES" 1) ⟨1, [], none, none⟩ := by
  decide

/-! ## Claim C9: `Property::extract` panics on short remainders -/

/-- C9: `Reader::entry` applies `Property::extract` to every `COMMENT`
remainder, and `extract` slices `string[1..len - 1]` unconditionally, so
a trimmed remainder of length `0` or `1` makes the slice bounds invalid
and the call panics instead of returning `Ok` or `Err` — e.g. on the
lines `COMMENT x` and `COMMENT ` (trailing space). -/
theorem C9_comment_extract_panics :
    (∀ s : Str, s.data.length < 2 → Property.extract s = none)
    ∧ (Reader.from ["COMMENT x"]).entry = .panicked
    ∧ (Reader.from ["COMMENT "]).entry = .panicked := by
  refine ⟨fun s h => ?_, by decide, by decide⟩
  rw [Property.extract, if_pos h]

/-- Witness for C9 at the concrete one-character remainder `"x"`. -/
theorem C9_comment_extract_panics_witness :
    ("x" : Str).data.length < 2 ∧ Property.extract "x" = none :=
  ⟨by decide, C9_comment_extract_panics.1 "x" (by decide)⟩

/-! ## Claim C8: quoted and bare `COMMENT` values -/

/-- C8 counterexample: the bare remainder `hue` is not carried through
unchanged — `Reader::entry` strips its first and last characters
(`Property::extract` is applied whether or not the value is quoted), so
`COMMENT hue` yields `Comment("u")`, not `Comment("hue")`. -/
theorem C8_bare_comment_counterexample :
    (Reader.from ["COMMENT hue"]).entry = .ok (.Comment "u") ⟨1, [], none, none⟩
    ∧ ("u" : Str) ≠ "hue" := by
  decide

/-- C8 amended: every `COMMENT` line with a non-empty remainder of at
least two characters yields `Ok (Comment s)` where `s` is the remainder
with its first and last characters removed and doubled quotes collapsed
to one — so a quoted remainder loses exactly its outer quotes, while a
bare remainder is mutilated the same way (and a remainder shorter than
two characters panics, see C9). -/
theorem C8_comment_extract_behavior :
    (∀ s : Str, 2 ≤ s.data.length →
      Property.extract s = some ⟨Property.extract.unescapeQuotes ((s.data.drop 1).dropLast)⟩)
    ∧ (Reader.from ["COMMENT \"hue\""]).entry = .ok (.Comment "hue") ⟨1, [], none, none⟩
    ∧ (Reader.from ["COMMENT hue"]).entry = .ok (.Comment "u") ⟨1, [], none, none⟩ := by
  refine ⟨fun s h => ?_, by decide, by decide⟩
  rw [Property.extract, if_neg (by omega)]

/-- Witness for the amended C8 at the concrete remainder `"abcd"`. -/
theorem C8_comment_extract_behavior_witness :
    2 ≤ ("abcd" : Str).data.length ∧
    Property.extract "abcd" =
      some ⟨Property.extract.unescapeQuotes ((("abcd" : Str).data.drop 1).dropLast)⟩ :=
  ⟨by decide, C8_comment_extract_behavior.1 "abcd" (by decide)⟩

/-! ## Claim C3: validation of incomplete fonts on both paths -/

/-- A loop state that is inside a font whose required fields are still
absent. -/
def stUnvalidated : LoopState :=
  { LoopState.init with in_font := true }

/-- A complete font carrying one invalid glyph (no bounds, no bitmap). -/
def fontBadGlyph : Font :=
  { Font.default with name := some "m", size := some ⟨1, 1, 1⟩,
                      bounds := some ⟨1, 1, 0, 0⟩, glyphs := [('A', Glyph.default)] }

/-- C3: a font missing its name, size or default bounding box fails
`Font::validate`; `read` rejects such a font at `ENDFONT` with
`MalformedFont` (shown both at the step level and end to end); and
`write` runs the same checks on the font and on every glyph before
emitting anything, failing with `MalformedFont` / `MalformedChar`
respectively. -/
theorem C3_incomplete_font_rejected :
    (∀ font : Font, font.name = none ∨ font.size = none ∨ font.bounds = none →
      font.validate = false)
    ∧ (∀ st : LoopState, st.in_font = true → st.in_char = false → st.in_props = false →
      st.font.validate = false → readStep st .EndFont = .fail .MalformedFont)
    ∧ read ["STARTFONT 2.2", "ENDFONT"] = .err .MalformedFont
    ∧ (∀ font : Font, font.validate = false → write font = .err .MalformedFont)
    ∧ (∀ font : Font, font.validate = true → (∃ cg ∈ font.glyphs, cg.2.validate = false) →
      write font = .err .MalformedChar) := by
  refine ⟨?_, ?_, ?_, ?_, ?_⟩
  · intro font h
    unfold Font.validate
    rcases h with h | h | h <;> simp [h]
  · intro st h1 h2 h3 h4
    unfold readStep
    simp [h1, h2, h3, h4]
  · rw [read_eq_readLoopF]; decide
  · intro font h
    unfold write
    simp [h]
  · intro font h1 h2
    unfold write
    obtain ⟨cg, hm, hv⟩ := h2
    rw [h1]
    simp only [Bool.not_true, Bool.false_eq_true, if_false]
    rw [if_pos]
    exact List.any_eq_true.mpr ⟨cg, hm, by simp [hv]⟩

/-- Witness for C3 at concrete fonts and states. -/
theorem C3_incomplete_font_rejected_witness :
    Font.default.validate = false
    ∧ readStep stUnvalidated .EndFont = .fail .MalformedFont
    ∧ write Font.default = .err .MalformedFont
    ∧ fontBadGlyph.validate = true
    ∧ write fontBadGlyph = .err .MalformedChar :=
  ⟨C3_incomplete_font_rejected.1 Font.default (Or.inl rfl),
   C3_incomplete_font_rejected.2.1 stUnvalidated rfl rfl rfl (by decide),
   C3_incomplete_font_rejected.2.2.2.1 Font.default (by decide),
   by decide,
   C3_incomplete_font_rejected.2.2.2.2 fontBadGlyph (by decide)
     ⟨('A', Glyph.default), by decide, by decide⟩⟩

/-! ## Claim C2: invalid codepoints are recoverable -/

/-- The glyph and font `read` assembles from the recoverable-error
stream below: only the second character survives. -/
def glyphGood : Glyph :=
  { Glyph.default with name := "good", codepoint := 'A',
                       bounds := some ⟨2, 2, 0, 0⟩,
                       map := some (Bitmap.ofFn 2 2 fun x y =>
                         [(0, 0), (1, 0), (1, 1)].contains (x, y)) }

/-- The font assembled from `linesSkippedChar`. -/
def fontSkipped : Font :=
  { Font.default with name := some "test", size := some ⟨16, 100, 100⟩,
                      bounds := some ⟨2, 2, 0, 0⟩, glyphs := [('A', glyphGood)] }

/-- A stream whose first character block carries `ENCODING 55296`
(`0xD800`, a surrogate, so `char::from_u32` fails) and whose second
block is well-formed. -/
def linesSkippedChar : List String :=
  ["STARTFONT 2.2", "FONT test", "SIZE 16 100 100",
   "FONTBOUNDINGBOX 2 2 0 0", "CHARS 2",
   "STARTCHAR bad", "ENCODING 55296", "BBX 2 2 0 0", "BITMAP", "C0", "80", "ENDCHAR",
   "STARTCHAR good", "ENCODING 65", "BBX 2 2 0 0", "BITMAP", "C0", "40", "ENDCHAR",
   "ENDFONT"]

/-- C2: an `ENCODING` with no valid scalar mapping does not abort
assembly — the `read` loop turns the `InvalidCodepoint` error into the
skip flag and continues; an `ENDCHAR` seen with the skip flag set
consumes the block, produces no glyph (the font is unchanged) and resets
the flag; and end to end, a stream containing such a block assembles to
the font with that character absent. -/
theorem C2_invalid_codepoint_skips_char :
    (∀ (st : LoopState) (r r2 : Reader) (ln : Nat) (l : Str),
      r.entry = .err (.InvalidCodepoint ln l) r2 →
      readLoop st r = readLoop { st with skip_current_char := true } r2)
    ∧ (∀ st : LoopState, st.in_font = true → st.in_props = false → st.in_char = true →
      st.skip_current_char = true →
      readStep st .EndChar = .cont { st with skip_current_char := false,
                                              in_char := false,
                                              glyph := Glyph.default })
    ∧ read linesSkippedChar = .ok fontSkipped := by
  refine ⟨?_, ?_, ?_⟩
  · intro st r r2 ln l he
    have hlt : r2.stream.length < r.stream.length := entry_err_le he (by simp)
    rw [← readLoopF_eq (r.stream.length + 1) st r (by omega)]
    rw [readLoopF, he]
    exact readLoopF_eq _ _ _ (by omega)
  · intro st h1 h2 h3 h4
    unfold readStep
    simp [h1, h2, h3, h4]
  · rw [read_eq_readLoopF]; decide

/-- An in-character loop state with the skip flag set. -/
def stSkipping : LoopState :=
  { stUnvalidated with in_char := true, skip_current_char := true }

/-- Witness for C2: a concrete reader whose next record is an invalid
`ENCODING`, and a concrete in-character state with the skip flag set. -/
theorem C2_invalid_codepoint_skips_char_witness :
    readLoop LoopState.init ⟨0, ["ENCODING 55296"], none, none⟩
      = readLoop { LoopState.init with skip_current_char := true } ⟨1, [], none, none⟩
    ∧ readStep stSkipping .EndChar
      = .cont { stSkipping with skip_current_char := false,
                                in_char := false,
                                glyph := Glyph.default } :=
  ⟨C2_invalid_codepoint_skips_char.1 LoopState.init ⟨0, ["ENCODING 55296"], none, none⟩
      ⟨1, [], none, none⟩ 1 "ENCODING 55296" (by decide),
   C2_invalid_codepoint_skips_char.2.1 stSkipping rfl rfl rfl rfl⟩

/-! ## Claim C10: `METRICSSET` is accepted in no scope -/

/-- A valid font whose default direction is `Alternate`. -/
def fontAltDir : Font :=
  { Font.default with name := some "m", size := some ⟨1, 1, 1⟩,
                      bounds := some ⟨1, 1, 0, 0⟩, direction := .Alternate }

/-- The lines `write fontAltDir` produces. -/
def linesAltDir : List String :=
  ["STARTFONT 2.2", "FONT m", "SIZE 1 1 1", "FONTBOUNDINGBOX 1 1 0 0",
   "METRICSSET 1", "CHARS 0", "ENDFONT"]

/-- A glyph with direction `Alternate`. -/
def glyphAlt : Glyph :=
  { Glyph.default with name := "g", codepoint := 'A', direction := .Alternate,
                       bounds := some ⟨1, 1, 0, 0⟩, map := some (Bitmap.new 1 1) }

/-- A valid font whose single glyph has direction `Alternate`. -/
def fontAltGlyph : Font :=
  { Font.default with name := some "m", size := some ⟨1, 1, 1⟩,
                      bounds := some ⟨1, 1, 0, 0⟩, glyphs := [('A', glyphAlt)] }

/-- The lines `write fontAltGlyph` produces. -/
def linesAltGlyph : List String :=
  ["STARTFONT 2.2", "FONT m", "SIZE 1 1 1", "FONTBOUNDINGBOX 1 1 0 0", "CHARS 1",
   "STARTCHAR g", "ENCODING 65", "METRICSSET 1", "BBX 1 1 0 0", "BITMAP", "00", "ENDCHAR",
   "ENDFONT"]

/-- C10: the assembler accepts a `Direction` (`METRICSSET`) record in no
scope — at the top level inside a font it is `MalformedFont`, inside a
character block it is `MalformedChar` — while `write` emits a
`METRICSSET` line for every non-default font or glyph direction; so the
write-then-read round trip fails for such fonts (shown end to end for
both a font-level and a glyph-level direction). -/
theorem C10_direction_never_readable :
    (∀ (st : LoopState) (d : Direction), st.in_font = true → st.in_props = false →
      st.in_char = false → readStep st (.Direction d) = .fail .MalformedFont)
    ∧ (∀ (st : LoopState) (d : Direction), st.in_font = true → st.in_props = false →
      st.in_char = true → readStep st (.Direction d) = .fail .MalformedChar)
    ∧ write fontAltDir = .ok linesAltDir
    ∧ "METRICSSET 1" ∈ linesAltDir
    ∧ read linesAltDir = .err .MalformedFont
    ∧ write fontAltGlyph = .ok linesAltGlyph
    ∧ "METRICSSET 1" ∈ linesAltGlyph
    ∧ read linesAltGlyph = .err .MalformedChar := by
  refine ⟨?_, ?_, by decide, by decide, by rw [read_eq_readLoopF]; decide,
    by decide, by decide, by rw [read_eq_readLoopF]; decide⟩
  · intro st d h1 h2 h3
    unfold readStep
    simp [h1, h2, h3]
  · intro st d h1 h2 h3
    unfold readStep
    simp [h1, h2, h3]

/-- Witness for C10's step-level parts at concrete states. -/
theorem C10_direction_never_readable_witness :
    readStep { LoopState.init with in_font := true } (.Direction .Alternate)
      = .fail .MalformedFont
    ∧ readStep { LoopState.init with in_font := true, in_char := true }
        (.Direction .Alternate) = .fail .MalformedChar :=
  ⟨C10_direction_never_readable.1 { LoopState.init with in_font := true } .Alternate
      rfl rfl rfl,
   C10_direction_never_readable.2.1 { LoopState.init with in_font := true, in_char := true }
      .Alternate rfl rfl rfl⟩

/-! ## Claim C5: `BITMAP` bounding-box selection -/

theorem setRow_dims : ∀ {k w y v : Nat} {m m2 : Bitmap},
    setRow w y v m k = some m2 → m2.width = m.width ∧ m2.height = m.height := by
  intro k
  induction k with
  | zero =>
    intro w y v m m2 h
    rw [setRow] at h
    cases h
    exact ⟨rfl, rfl⟩
  | succ k ih =>
    intro w y v m m2 h
    rw [setRow] at h
    cases hb : setRow w y v m k with
    | none => rw [hb] at h; simp at h
    | some mk =>
      rw [hb] at h
      simp only [Option.some_bind] at h
      have hd := ih hb
      unfold Bitmap.set at h
      split at h
      · simp at h
      · cases h
        simpa using hd

theorem decodeRows_dims : ∀ {rs : List String} {w y : Nat} {m m2 : Bitmap},
    decodeRows w rs y m = .ok m2 → m2.width = m.width ∧ m2.height = m.height := by
  intro rs
  induction rs with
  | nil =>
    intro w y m m2 h
    rw [decodeRows] at h
    cases h
    exact ⟨rfl, rfl⟩
  | cons s ss ih =>
    intro w y m m2 h
    rw [decodeRows] at h
    cases hv : fromStrRadix16 s with
    | none => rw [hv] at h; simp at h
    | some v =>
      rw [hv] at h
      dsimp only at h
      cases hr : setRow w y (v >>> ((8 - w % 8) % 8)) m w with
      | none => rw [hr] at h; simp at h
      | some mk =>
        rw [hr] at h
        dsimp only at h
        cases hrec : decodeRows w ss (y + 1) mk with
        | ok m3 =>
          rw [hrec] at h
          cases h
          obtain ⟨hw1, hh1⟩ := ih hrec
          obtain ⟨hw2, hh2⟩ := setRow_dims hr
          exact ⟨hw1.trans hw2, hh1.trans hh2⟩
        | parseFail k => rw [hrec] at h; simp at h
        | panicked => rw [hrec] at h; simp at h

/-- Unfolding `Reader::entry` when the head line is non-empty. -/
theorem entry_cons {r : Reader} {line : Str} {rest : List String}
    (hs : r.stream = line :: rest) (hne : ¬line = "") :
    r.entry = dispatch line { r with stream := rest, line_number := r.line_number + 1 } := by
  unfold Reader.entry
  rw [hs]
  simp [popLine, hne]

/-- Dispatching the literal line `BITMAP` reaches the `BITMAP` arm. -/
theorem dispatch_bitmap (r : Reader) : dispatch "BITMAP" r = bitmapArm "BITMAP" r := by
  have h : splitId "BITMAP" = ("BITMAP", none) := by decide
  unfold dispatch
  rw [h]
  simp

/-- A successful `bitmapWith` returns a bitmap of the selected
dimensions and clears the character-scope box. -/
theorem bitmapWith_ok {w h : Nat} {line : Str} {r r2 : Reader} {e : Entry}
    (hok : bitmapWith w h line r = .ok e r2) :
    (∃ m, e = .Bitmap m ∧ m.width = w ∧ m.height = h) ∧ r2.current = none := by
  unfold bitmapWith at hok
  cases hd : decodeBitmap w h r.stream with
  | ok m =>
    rw [hd] at hok
    dsimp only at hok
    cases hok
    unfold decodeBitmap at hd
    have hdim := decodeRows_dims hd
    exact ⟨⟨m, rfl, by simpa [Bitmap.new] using hdim⟩, rfl⟩
  | parseFail k => rw [hd] at hok; simp at hok
  | panicked => rw [hd] at hok; simp at hok

/-- C5: on a `BITMAP` line, the bitmap's dimensions come from the
character-scope `BBX` box if one is active, else from the font-level
`FONTBOUNDINGBOX` box; with neither, the call fails with
`MissingBoundingBox`; and on success the character-scope box is
cleared. -/
theorem C5_bitmap_box_selection (r : Reader) (rest : List String)
    (hs : r.stream = "BITMAP" :: rest) :
    (∀ bb, r.current = some bb →
      ∀ e r2, r.entry = .ok e r2 →
        (∃ m, e = .Bitmap m ∧ m.width = bb.width ∧ m.height = bb.height)
        ∧ r2.current = none)
    ∧ (r.current = none → ∀ bb, r.default = some bb →
      ∀ e r2, r.entry = .ok e r2 →
        (∃ m, e = .Bitmap m ∧ m.width = bb.width ∧ m.height = bb.height)
        ∧ r2.current = none)
    ∧ (r.current = none → r.default = none →
      r.entry = .err (.MissingBoundingBox (r.line_number + 1) "BITMAP")
        { r with stream := rest, line_number := r.line_number + 1 }) := by
  have he := entry_cons hs (by decide)
  rw [dispatch_bitmap] at he
  refine ⟨?_, ?_, ?_⟩
  · intro bb hc e r2 hok
    rw [he] at hok
    unfold bitmapArm at hok
    dsimp only at hok
    rw [hc] at hok
    dsimp only at hok
    exact bitmapWith_ok hok
  · intro hc bb hdef e r2 hok
    rw [he] at hok
    unfold bitmapArm at hok
    dsimp only at hok
    rw [hc, hdef] at hok
    dsimp only at hok
    exact bitmapWith_ok hok
  · intro hc hdef
    rw [he]
    unfold bitmapArm
    dsimp only
    rw [hc, hdef]

/-- Witness for C5 at concrete readers: an active `BBX` box sizes the
bitmap and is cleared, and a reader with no box at all fails. -/
theorem C5_bitmap_box_selection_witness :
    ((∃ m, Entry.Bitmap (⟨3, 1, 0⟩ : Bitmap) = .Bitmap m ∧ m.width = 3 ∧ m.height = 1)
      ∧ (⟨2, [], none, none⟩ : Reader).current = none)
    ∧ (⟨0, ["BITMAP"], none, none⟩ : Reader).entry
        = .err (.MissingBoundingBox 1 "BITMAP") ⟨1, [], none, none⟩ :=
  ⟨(C5_bitmap_box_selection ⟨0, ["BITMAP", "00"], none, some ⟨3, 1, 0, 0⟩⟩ ["00"] rfl).1
      ⟨3, 1, 0, 0⟩ rfl (.Bitmap ⟨3, 1, 0⟩) ⟨2, [], none, none⟩ (by decide),
   (C5_bitmap_box_selection ⟨0, ["BITMAP"], none, none⟩ [] rfl).2.2 rfl rfl⟩

/-! ## Bitmap codec correctness: bit-level lemmas -/

/-- The pixel condition `((row >> x) & 1) == 1` of the decode loop is
`Nat.testBit`. -/
theorem shiftBit_eq (v k : Nat) : (((v >>> k) &&& 1) == 1) = v.testBit k := by
  rw [Nat.and_one_is_mod, Nat.testBit_to_div_mod, Nat.shiftRight_eq_div_pow]
  by_cases h : v / 2 ^ k % 2 = 1 <;> simp [h]

/-- Accumulating one pixel into an even value: `or` is addition. -/
theorem two_mul_lor_le_one (a b : Nat) (hb : b ≤ 1) : 2 * a ||| b = 2 * a + b := by
  apply Nat.eq_of_testBit_eq
  intro i
  rw [Nat.testBit_lor]
  interval_cases b
  · cases i with
    | zero =>
      have h1 : 2 * a % 2 = 0 := by omega
      simp [Nat.testBit_zero, h1]
    | succ i =>
      have h1 : 2 * a / 2 = a := by omega
      simp [Nat.testBit_succ, h1, Nat.zero_testBit]
  · cases i with
    | zero =>
      have h1 : 2 * a % 2 = 0 := by omega
      have h2 : (2 * a + 1) % 2 = 1 := by omega
      simp [Nat.testBit_zero, h1, h2]
    | succ i =>
      have h1 : 2 * a / 2 = a := by omega
      have h2 : (2 * a + 1) / 2 = a := by omega
      have h3 : (1 : Nat) / 2 = 0 := by omega
      simp [Nat.testBit_succ, h1, h2, h3, Nat.zero_testBit]

theorem gridBits_testBit (w : Nat) (f : Nat → Nat → Bool) :
    ∀ n q, (gridBits w f n).testBit q = if q < n then f (q % w) (q / w) else false := by
  intro n
  induction n with
  | zero => intro q; simp [gridBits, Nat.zero_testBit]
  | succ p ih =>
    intro q
    rw [gridBits, Nat.testBit_lor, ih]
    by_cases hqp : q = p
    · subst hqp
      rw [if_neg (lt_irrefl q), if_pos (Nat.lt_succ_self q), Bool.false_or]
      cases hf : f (q % w) (q / w)
      · simp [hf, Nat.zero_testBit]
      · simp [hf, Nat.testBit_two_pow_self]
    · have h2 : Nat.testBit (if f (p % w) (p / w) then 2 ^ p else 0) q = false := by
        cases hf : f (p % w) (p / w)
        · simp [hf, Nat.zero_testBit]
        · simp only [hf, if_pos]
          exact Nat.testBit_two_pow_of_ne fun h => hqp h.symm
      rw [h2, Bool.or_false]
      by_cases hq : q < p
      · rw [if_pos hq, if_pos (Nat.lt_succ_of_lt hq)]
      · rw [if_neg hq, if_neg (by omega)]

/-- The value the encoder's inner loop accumulates for row `y` after the
first `k` pixels (`value <<= 1; value |= pixel`), without the `u64`
wrap-around. -/
def rowAcc (f : Nat → Nat → Bool) (y : Nat) : Nat → Nat
  | 0 => 0
  | k + 1 => 2 * rowAcc f y k + (if f k y then 1 else 0)

theorem rowAcc_lt (f : Nat → Nat → Bool) (y : Nat) : ∀ k, rowAcc f y k < 2 ^ k := by
  intro k
  induction k with
  | zero => simp [rowAcc]
  | succ k ih =>
    rw [rowAcc, pow_succ]
    have : (if f k y then 1 else 0) ≤ 1 := by split <;> omega
    omega

theorem rowAcc_testBit (f : Nat → Nat → Bool) (y : Nat) :
    ∀ k x, x < k → (rowAcc f y k).testBit x = f (k - 1 - x) y := by
  intro k
  induction k with
  | zero => omega
  | succ k ih =>
    intro x hx
    rw [rowAcc]
    have hb : (if f k y then 1 else 0) ≤ 1 := by split <;> omega
    cases x with
    | zero =>
      rw [Nat.testBit_zero]
      have hmod : (2 * rowAcc f y k + if f k y then 1 else 0) % 2
          = (if f k y then 1 else 0) := by omega
      rw [hmod]
      split <;> simp_all
    | succ x =>
      rw [Nat.testBit_succ]
      have hdiv : (2 * rowAcc f y k + if f k y then 1 else 0) / 2 = rowAcc f y k := by omega
      rw [hdiv, ih x (by omega)]
      congr 1
      omega

/-! ## Bitmap codec correctness: hexadecimal round trip -/

theorem digitsVal_append (base : Nat) (dig : Char → Option Nat) :
    ∀ (l1 l2 : List Char) (acc : Nat),
      digitsVal base dig (l1 ++ l2) acc
        = (digitsVal base dig l1 acc).bind fun a => digitsVal base dig l2 a := by
  intro l1
  induction l1 with
  | nil => intro l2 acc; rfl
  | cons c rest ih =>
    intro l2 acc
    rw [List.cons_append, digitsVal, digitsVal]
    cases dig c with
    | none => rfl
    | some d => exact ih l2 (acc * base + d)

theorem hexDigit?_hexChar (d : Nat) (hd : d < 16) : hexDigit? (hexChar d) = some d := by
  interval_cases d <;> decide

theorem hexChar_mem_range (d : Nat) (hd : d < 16) :
    hexDigit? (hexChar d) ≠ none := by
  rw [hexDigit?_hexChar d hd]
  simp

theorem toHexAux_digits : ∀ (fuel n acc : Nat), n ≤ fuel →
    digitsVal 16 hexDigit? (toHexAux fuel n) acc
      = some (acc * 16 ^ (toHexAux fuel n).length + n) := by
  intro fuel
  induction fuel with
  | zero =>
    intro n acc hn
    have h0 : n = 0 := by omega
    subst h0
    simp [toHexAux, digitsVal]
  | succ fuel ih =>
    intro n acc hn
    rw [toHexAux]
    by_cases h0 : n = 0
    · subst h0
      simp [digitsVal]
    · rw [if_neg h0]
      rw [digitsVal_append]
      rw [ih (n / 16) acc (by omega)]
      rw [Option.some_bind]
      simp only [digitsVal, hexDigit?_hexChar (n % 16) (by omega)]
      rw [List.length_append, List.length_singleton]
      congr 1
      rw [pow_succ]
      have := Nat.div_add_mod n 16
      ring_nf
      omega

/-- Left-padding with `'0'` digits does not change the parsed value when
the accumulator is zero. -/
theorem digitsVal_zeros : ∀ (k : Nat) (l : List Char),
    digitsVal 16 hexDigit? (List.replicate k '0' ++ l) 0
      = digitsVal 16 hexDigit? l 0 := by
  intro k
  induction k with
  | zero => intro l; rfl
  | succ k ih =>
    intro l
    rw [List.replicate_succ, List.cons_append, digitsVal]
    have h0 : hexDigit? '0' = some 0 := by decide
    rw [h0]
    simpa using ih l

theorem toHexAux_mem : ∀ (fuel n : Nat), n ≤ fuel →
    ∀ c ∈ toHexAux fuel n, ∃ d, d < 16 ∧ c = hexChar d := by
  intro fuel
  induction fuel with
  | zero =>
    intro n hn c hc
    have h0 : n = 0 := by omega
    subst h0
    simp [toHexAux] at hc
  | succ fuel ih =>
    intro n hn c hc
    rw [toHexAux] at hc
    by_cases h0 : n = 0
    · rw [if_pos h0] at hc; simp at hc
    · rw [if_neg h0] at hc
      rcases List.mem_append.mp hc with hm | hm
      · exact ih (n / 16) (by omega) c hm
      · rw [List.mem_singleton] at hm
        exact ⟨n % 16, by omega, hm⟩

theorem toHexAux_ne_nil : ∀ (fuel n : Nat), n ≠ 0 → n ≤ fuel → toHexAux fuel n ≠ [] := by
  intro fuel n h0 hn
  cases fuel with
  | zero => omega
  | succ fuel =>
    rw [toHexAux, if_neg h0]
    simp

theorem toHexUpper_ne_nil (v : Nat) : toHexUpper v ≠ [] := by
  rw [toHexUpper]
  by_cases h0 : v = 0
  · rw [if_pos h0]; simp
  · rw [if_neg h0]
    exact toHexAux_ne_nil v v h0 le_rfl

theorem stripPlus_of_ne {l : List Char} (h : ∀ rest, l ≠ '+' :: rest) :
    stripPlus l = l := by
  cases l with
  | nil => rfl
  | cons c rest =>
    rw [stripPlus, if_neg]
    intro hc
    exact h rest (by rw [hc])

/-- Parsing the zero-padded uppercase rendering of `v < 2 ^ 64` recovers
`v`, for any pad width. -/
theorem fromStrRadix16_pad (k v : Nat) (hv : v < 2 ^ 64) :
    fromStrRadix16 ⟨padLeft0 k (toHexUpper v)⟩ = some v := by
  have hne : ∀ c ∈ padLeft0 k (toHexUpper v), c ≠ '+' := by
    intro c hc
    rcases List.mem_append.mp hc with hm | hm
    · rw [List.eq_of_mem_replicate hm]; decide
    · rw [toHexUpper] at hm
      by_cases h0 : v = 0
      · rw [if_pos h0] at hm
        rw [List.mem_singleton] at hm
        rw [hm]; decide
      · rw [if_neg h0] at hm
        obtain ⟨d, hd, rfl⟩ := toHexAux_mem v v le_rfl c hm
        interval_cases d <;> decide
  have hnonempty : padLeft0 k (toHexUpper v) ≠ [] := by
    rw [padLeft0]
    intro hemp
    rcases List.append_eq_nil.mp hemp with ⟨-, h2⟩
    exact toHexUpper_ne_nil v h2
  have hstrip : stripPlus (padLeft0 k (toHexUpper v)) = padLeft0 k (toHexUpper v) := by
    apply stripPlus_of_ne
    intro rest hplus
    exact hne '+' (by rw [hplus]; exact List.mem_cons_self _ _) rfl
  rw [fromStrRadix16]
  show (let l := stripPlus (⟨padLeft0 k (toHexUpper v)⟩ : String).data; _) = _
  rw [show (⟨padLeft0 k (toHexUpper v)⟩ : String).data = padLeft0 k (toHexUpper v) from rfl]
  rw [hstrip]
  rw [if_neg (by simpa [List.isEmpty_iff] using hnonempty)]
  rw [padLeft0, digitsVal_zeros]
  have hdig : digitsVal 16 hexDigit? (toHexUpper v) 0 = some v := by
    rw [toHexUpper]
    by_cases h0 : v = 0
    · rw [if_pos h0, h0]; rfl
    · rw [if_neg h0]
      rw [toHexCore, toHexAux_digits v v 0 le_rfl]
      simp
  rw [hdig]
  dsimp only
  rw [if_pos hv]

/-! ## Bitmap codec correctness: the decode loops -/

theorem encPad_eq (w : Nat) : (-(w : Int) % 8).toNat = (8 - w % 8) % 8 := by
  omega

theorem pad_bound (w : Nat) (hw : w ≤ 64) : w + (8 - w % 8) % 8 ≤ 64 := by
  omega

/-- What the inner decode loop does to the bits: positions
`y * w + c` for `w - k ≤ c < w` are set to bit `w - 1 - c` of the row
value; nothing else changes, provided the bitmap held no position at or
beyond row `y` yet. -/
theorem setRow_spec (w y v : Nat) (m : Bitmap) (hmw : m.width = w) (hmy : y < m.height)
    (hclear : ∀ p, m.bits.testBit p = true → p < y * w) :
    ∀ k, k ≤ w →
    ∃ m2, setRow w y v m k = some m2 ∧ m2.width = w ∧ m2.height = m.height ∧
      ∀ p, m2.bits.testBit p = true ↔
        (m.bits.testBit p = true ∨
          ∃ c, w - k ≤ c ∧ c < w ∧ p = y * w + c ∧ v.testBit (w - 1 - c) = true) := by
  intro k
  induction k with
  | zero =>
    intro _
    refine ⟨m, rfl, hmw, rfl, fun p => ?_⟩
    constructor
    · exact Or.inl
    · rintro (h | ⟨c, hc1, hc2, -, -⟩)
      · exact h
      · omega
  | succ k ih =>
    intro hk
    obtain ⟨m2, hset, hw2, hh2, hiff⟩ := ih (by omega)
    have hpos : ¬(y ≥ m2.height ∨ w - k - 1 ≥ m2.width) := by
      rw [hw2, hh2]
      push_neg
      exact ⟨hmy, by omega⟩
    rw [setRow, hset, Option.some_bind, Bitmap.set, if_neg hpos]
    have hposeq : y * m2.width + (w - k - 1) = y * w + (w - k - 1) := by rw [hw2]
    rw [hposeq]
    have hfresh : m2.bits.testBit (y * w + (w - k - 1)) = false := by
      cases hb : m2.bits.testBit (y * w + (w - k - 1))
      · rfl
      · exfalso
        rcases (hiff _).mp hb with hold | ⟨c, hc1, hc2, hceq, -⟩
        · have := hclear _ hold
          omega
        · omega
    have hidx : w - 1 - (w - k - 1) = k := by omega
    rw [shiftBit_eq]
    cases hvk : v.testBit k
    · rw [if_neg (by simp), hfresh, if_neg (by simp)]
      refine ⟨m2, rfl, hw2, hh2, fun p => ?_⟩
      rw [hiff p]
      constructor
      · rintro (h | ⟨c, hc1, hc2, hceq, hbit⟩)
        · exact Or.inl h
        · exact Or.inr ⟨c, by omega, hc2, hceq, hbit⟩
      · rintro (h | ⟨c, hc1, hc2, hceq, hbit⟩)
        · exact Or.inl h
        · rcases Nat.lt_or_ge c (w - k) with hlt | hge
          · exfalso
            have hc : c = w - k - 1 := by omega
            rw [hc, hidx, hvk] at hbit
            exact Bool.false_ne_true hbit
          · exact Or.inr ⟨c, hge, hc2, hceq, hbit⟩
    · rw [if_pos (by simp)]
      refine ⟨_, rfl, hw2, hh2, fun p => ?_⟩
      dsimp only
      rw [Nat.testBit_lor, Bool.or_eq_true, hiff p, Nat.testBit_two_pow]
      constructor
      · rintro ((h | ⟨c, hc1, hc2, hceq, hbit⟩) | hp)
        · exact Or.inl h
        · exact Or.inr ⟨c, by omega, hc2, hceq, hbit⟩
        · refine Or.inr ⟨w - k - 1, by omega, by omega, ?_, ?_⟩
          · exact (of_decide_eq_true hp).symm
          · rw [hidx, hvk]
      · rintro (h | ⟨c, hc1, hc2, hceq, hbit⟩)
        · exact Or.inl (Or.inl h)
        · rcases Nat.lt_or_ge c (w - k) with hlt | hge
          · have hc : c = w - k - 1 := by omega
            exact Or.inr (decide_eq_true (by omega))
          · exact Or.inl (Or.inr ⟨c, hge, hc2, hceq, hbit⟩)

/-- The positions the row block `rs`, decoded starting at row `y`, turns
on: position `y' * w + c` for row index `y'`, column `c < w`, and bit
`w - 1 - c` of the parsed-and-shifted row value. -/
def rowsBits (w : Nat) : List String → Nat → Nat → Prop
  | [], _, _ => False
  | s :: ss, y, p =>
    (∃ c, c < w ∧ p = y * w + c ∧
      (((fromStrRadix16 s).getD 0 >>> ((8 - w % 8) % 8)).testBit (w - 1 - c)) = true)
    ∨ rowsBits w ss (y + 1) p

theorem rowsBits_lt (w : Nat) : ∀ (rs : List String) (y p : Nat),
    rowsBits w rs y p → y * w ≤ p ∧ p < (y + rs.length) * w := by
  intro rs
  induction rs with
  | nil => intro y p h; exact absurd h id
  | cons s ss ih =>
    intro y p h
    rcases h with ⟨c, hc, hp, -⟩ | h
    · constructor
      · omega
      · have : (y + 1) * w ≤ (y + (s :: ss).length) * w :=
          Nat.mul_le_mul_right w (by simp)
        have h2 : p < (y + 1) * w := by
          rw [Nat.add_mul, Nat.one_mul]
          omega
        omega
    · obtain ⟨h1, h2⟩ := ih (y + 1) p h
      have h3 : y * w ≤ (y + 1) * w := Nat.mul_le_mul_right w (by omega)
      constructor
      · omega
      · have : (y + 1 + ss.length) * w = (y + (s :: ss).length) * w := by
          congr 1
          simp
          omega
        omega

/-- What the decode row loop does: every row line parses, the result
keeps the dimensions, and the final bit set is the original one plus the
rows' bits. -/
theorem decodeRows_spec (w h : Nat) : ∀ (rs : List String) (y : Nat) (m : Bitmap),
    m.width = w → m.height = h → y + rs.length ≤ h →
    (∀ s ∈ rs, (fromStrRadix16 s).isSome = true) →
    (∀ p, m.bits.testBit p = true → p < y * w) →
    ∃ m2, decodeRows w rs y m = .ok m2 ∧ m2.width = w ∧ m2.height = h ∧
      ∀ p, m2.bits.testBit p = true ↔ (m.bits.testBit p = true ∨ rowsBits w rs y p) := by
  intro rs
  induction rs with
  | nil =>
    intro y m hmw hmh hlen hpar hclear
    refine ⟨m, rfl, hmw, hmh, fun p => ?_⟩
    rw [rowsBits]
    constructor
    · exact Or.inl
    · rintro (h | h)
      · exact h
      · exact absurd h id
  | cons s ss ih =>
    intro y m hmw hmh hlen hpar hclear
    obtain ⟨v, hv⟩ := Option.isSome_iff_exists.mp (hpar s (List.mem_cons_self s ss))
    have hy : y < h := by
      have := hlen
      simp at this
      omega
    obtain ⟨m2, hset, hw2, hh2, hiff⟩ :=
      setRow_spec w y (v >>> ((8 - w % 8) % 8)) m hmw (by omega) hclear w le_rfl
    have hclear2 : ∀ p, m2.bits.testBit p = true → p < (y + 1) * w := by
      intro p hp
      rcases (hiff p).mp hp with hold | ⟨c, hc1, hc2, hceq, -⟩
      · have h1 := hclear p hold
        have h3 : y * w ≤ (y + 1) * w := Nat.mul_le_mul_right w (by omega)
        omega
      · rw [Nat.add_mul, Nat.one_mul]
        omega
    obtain ⟨m3, hrec, hw3, hh3, hiff3⟩ :=
      ih (y + 1) m2 hw2 (hh2.trans hmh) (by simp at hlen ⊢; omega)
        (fun t ht => hpar t (List.mem_cons_of_mem s ht)) hclear2
    refine ⟨m3, ?_, hw3, hh3, fun p => ?_⟩
    · rw [decodeRows, hv]
      dsimp only
      rw [hset]
      dsimp only
      rw [hrec]
    · rw [hiff3 p, hiff p, rowsBits, hv]
      rw [Option.getD_some]
      constructor
      · rintro ((h | ⟨c, -, hc2, hceq, hbit⟩) | hr)
        · exact Or.inl h
        · exact Or.inr (Or.inl ⟨c, hc2, hceq, hbit⟩)
        · exact Or.inr (Or.inr hr)
      · rintro (h | (⟨c, hc2, hceq, hbit⟩ | hr))
        · exact Or.inl (Or.inl h)
        · exact Or.inl (Or.inr ⟨c, by omega, hc2, hceq, hbit⟩)
        · exact Or.inr hr

/-! ## Bitmap codec correctness: the encode loops -/

theorem encodeRowVal_ofFn (w h : Nat) (f : Nat → Nat → Bool) (y : Nat)
    (hy : y < h) (hw : w ≤ 64) :
    ∀ k, k ≤ w → encodeRowVal (Bitmap.ofFn w h f) y k = some (rowAcc f y k) := by
  intro k
  induction k with
  | zero => intro _; rfl
  | succ k ih =>
    intro hk
    rw [encodeRowVal, ih (by omega), Option.some_bind]
    have hwpos : 0 < w := by omega
    have hget : (Bitmap.ofFn w h f).get k y = some (f k y) := by
      rw [Bitmap.get, Bitmap.ofFn]
      dsimp only
      rw [if_neg (by push_neg; exact ⟨hy, by omega⟩)]
      rw [gridBits_testBit]
      have hlt : y * w + k < h * w := by
        have h1 : (y + 1) * w = y * w + w := by ring
        have h2 : (y + 1) * w ≤ h * w := Nat.mul_le_mul_right w (by omega)
        omega
      rw [if_pos hlt]
      have hmod : (y * w + k) % w = k := by
        rw [Nat.mul_comm y w, Nat.mul_add_mod, Nat.mod_eq_of_lt (by omega)]
      have hdiv : (y * w + k) / w = y := by
        rw [Nat.mul_comm y w, Nat.mul_add_div hwpos, Nat.div_eq_of_lt (by omega)]
        omega
      rw [hmod, hdiv]
    rw [hget, Option.map_some']
    have hv := rowAcc_lt f y k
    have hmod2 : rowAcc f y k * 2 % 2 ^ 64 = rowAcc f y k * 2 := by
      apply Nat.mod_eq_of_lt
      have h1 : rowAcc f y k * 2 < 2 ^ (k + 1) := by
        rw [pow_succ]
        omega
      have h2 : (2 : Nat) ^ (k + 1) ≤ 2 ^ 64 := Nat.pow_le_pow_right (by omega) (by omega)
      omega
    rw [hmod2, Nat.mul_comm (rowAcc f y k) 2,
      two_mul_lor_le_one _ _ (by split <;> omega), rowAcc]

/-- The exact row string the encoder emits for row `i`. -/
def renderRow (w : Nat) (f : Nat → Nat → Bool) (i : Nat) : String :=
  ⟨padLeft0 ((w + 7) >>> 3 <<< 1) (toHexUpper (rowAcc f i w * 2 ^ ((8 - w % 8) % 8)))⟩

theorem renderRow_val_lt (w : Nat) (f : Nat → Nat → Bool) (i : Nat) (hw : w ≤ 64) :
    rowAcc f i w * 2 ^ ((8 - w % 8) % 8) < 2 ^ 64 := by
  have h1 := rowAcc_lt f i w
  have h2 : rowAcc f i w * 2 ^ ((8 - w % 8) % 8) < 2 ^ w * 2 ^ ((8 - w % 8) % 8) :=
    (Nat.mul_lt_mul_right (Nat.pos_pow_of_pos _ (by omega))).mpr h1
  have h3 : (2 : Nat) ^ w * 2 ^ ((8 - w % 8) % 8) = 2 ^ (w + (8 - w % 8) % 8) := by
    rw [pow_add]
  have h4 : (2 : Nat) ^ (w + (8 - w % 8) % 8) ≤ 2 ^ 64 :=
    Nat.pow_le_pow_right (by omega) (pad_bound w hw)
  omega

theorem encodeRow_ofFn (w h : Nat) (f : Nat → Nat → Bool) (y : Nat)
    (hy : y < h) (hw : w ≤ 64) :
    encodeRow (Bitmap.ofFn w h f) y = some (renderRow w f y) := by
  rw [encodeRow]
  rw [show (Bitmap.ofFn w h f).width = w from rfl]
  rw [encodeRowVal_ofFn w h f y hy hw w le_rfl, Option.map_some']
  rw [renderRow, encPad_eq, Nat.shiftLeft_eq (rowAcc f y w) ((8 - w % 8) % 8)]
  rw [Nat.mod_eq_of_lt (renderRow_val_lt w f y hw)]

theorem encodeRows_ofFn (w h : Nat) (f : Nat → Nat → Bool) (hw : w ≤ 64) :
    ∀ k, k ≤ h →
      encodeRows (Bitmap.ofFn w h f) k = some ((List.range k).map (renderRow w f)) := by
  intro k
  induction k with
  | zero => intro _; rfl
  | succ k ih =>
    intro hk
    rw [encodeRows, ih (by omega), encodeRow_ofFn w h f k (by omega) hw]
    dsimp only
    rw [List.range_succ, List.map_append, List.map_singleton]

/-- The bits the encoded rows decode back to are exactly the pixel
assignment. -/
theorem rowsBits_render (w : Nat) (f : Nat → Nat → Bool) (hw : w ≤ 64) :
    ∀ (n a p : Nat),
      rowsBits w ((List.range' a n).map (renderRow w f)) a p ↔
        ∃ i, a ≤ i ∧ i < a + n ∧ ∃ c, c < w ∧ p = i * w + c ∧ f c i = true := by
  intro n
  induction n with
  | zero =>
    intro a p
    rw [List.range'_zero, List.map_nil, rowsBits]
    constructor
    · exact fun h => absurd h id
    · rintro ⟨i, h1, h2, -⟩
      omega
  | succ n ih =>
    intro a p
    rw [List.range'_succ, List.map_cons, rowsBits]
    have hval : ((fromStrRadix16 (renderRow w f a)).getD 0 >>> ((8 - w % 8) % 8))
        = rowAcc f a w := by
      rw [renderRow, fromStrRadix16_pad _ _ (renderRow_val_lt w f a hw), Option.getD_some]
      rw [Nat.shiftRight_eq_div_pow]
      exact Nat.mul_div_cancel _ (Nat.pos_pow_of_pos _ (by omega))
    constructor
    · rintro (⟨c, hc, hp, hbit⟩ | hr)
      · refine ⟨a, le_rfl, by omega, c, hc, hp, ?_⟩
        rw [hval, rowAcc_testBit f a w (w - 1 - c) (by omega)] at hbit
        rwa [show w - 1 - (w - 1 - c) = c from by omega] at hbit
      · obtain ⟨i, h1, h2, hrest⟩ := (ih (a + 1) p).mp hr
        exact ⟨i, by omega, by omega, hrest⟩
    · rintro ⟨i, h1, h2, c, hc, hp, hfca⟩
      by_cases hia : i = a
      · subst hia
        refine Or.inl ⟨c, hc, hp, ?_⟩
        rw [hval, rowAcc_testBit f i w (w - 1 - c) (by omega),
          show w - 1 - (w - 1 - c) = c from by omega]
        exact hfca
      · exact Or.inr ((ih (a + 1) p).mpr ⟨i, by omega, by omega, c, hc, hp, hfca⟩)

/-! ## Claim C1: bitmap codec round trip -/

/-- C1: for every `width ≤ 64`, every `height`, and every pixel
assignment, decoding (the `BITMAP` branch of `Reader::entry`, at the
same declared width and height) the uppercase hex rows produced by
encoding (the `Entry::Bitmap` branch of `Writer::entry`) succeeds and
returns a bitmap equal to the original. -/
theorem C1_bitmap_roundtrip (w h : Nat) (f : Nat → Nat → Bool) (hw : w ≤ 64) :
    ((encodeBitmap (Bitmap.ofFn w h f)).map fun rows => decodeBitmap w h rows)
      = some (.ok (Bitmap.ofFn w h f)) := by
  rw [encodeBitmap, show (Bitmap.ofFn w h f).height = h from rfl,
    encodeRows_ofFn w h f hw h le_rfl, Option.map_some']
  congr 1
  have hlen : ((List.range h).map (renderRow w f)).length = h := by
    rw [List.length_map, List.length_range]
  rw [decodeBitmap, List.take_of_length_le (le_of_eq hlen)]
  have hpar : ∀ s ∈ (List.range h).map (renderRow w f), (fromStrRadix16 s).isSome = true := by
    intro s hs
    obtain ⟨i, -, rfl⟩ := List.mem_map.mp hs
    rw [renderRow, fromStrRadix16_pad _ _ (renderRow_val_lt w f i hw)]
    rfl
  have hclear0 : ∀ p, (Bitmap.new w h).bits.testBit p = true → p < 0 * w := by
    intro p hp
    rw [show (Bitmap.new w h).bits = 0 from rfl, Nat.zero_testBit] at hp
    exact absurd hp (by simp)
  obtain ⟨m2, hdec, hw2, hh2, hiff⟩ :=
    decodeRows_spec w h ((List.range h).map (renderRow w f)) 0 (Bitmap.new w h) rfl rfl
      (by simp [hlen]) hpar hclear0
  · rw [hdec]
    have hbits : m2.bits = gridBits w f (h * w) := by
      apply Nat.eq_of_testBit_eq
      intro p
      have hm2 := hiff p
      rw [show (Bitmap.new w h).bits = 0 from rfl, Nat.zero_testBit] at hm2
      simp only [Bool.false_eq_true, false_or] at hm2
      rw [List.range_eq_range'] at hm2
      rw [rowsBits_render w f hw h 0 p] at hm2
      rw [gridBits_testBit]
      by_cases hp : p < h * w
      · rw [if_pos hp]
        have hwpos : 0 < w := by
          rcases Nat.eq_zero_or_pos w with h0 | h0
          · rw [h0, Nat.mul_zero] at hp
            omega
          · exact h0
        cases hf : f (p % w) (p / w)
        · rw [Bool.eq_false_iff]
          intro hbit
          obtain ⟨i, -, hih, c, hcw, hpv, hfci⟩ := hm2.mp hbit
          have hmodv : p % w = c := by
            rw [hpv, Nat.mul_comm i w, Nat.mul_add_mod, Nat.mod_eq_of_lt hcw]
          have hdivv : p / w = i := by
            rw [hpv, Nat.mul_comm i w, Nat.mul_add_div hwpos, Nat.div_eq_of_lt hcw,
              Nat.add_zero]
          rw [hmodv, hdivv] at hf
          rw [hf] at hfci
          exact absurd hfci (by simp)
        · apply hm2.mpr
          have hdlt : p / w < 0 + h := by
            rw [Nat.zero_add]
            exact Nat.div_lt_of_lt_mul (by rw [Nat.mul_comm w h]; exact hp)
          have hsum : p = p / w * w + p % w := by
            rw [Nat.mul_comm (p / w) w]
            exact (Nat.div_add_mod p w).symm
          exact ⟨p / w, Nat.zero_le _, hdlt, p % w, Nat.mod_lt p hwpos, hsum, hf⟩
      · rw [if_neg hp]
        rw [Bool.eq_false_iff]
        intro hbit
        obtain ⟨i, -, hih, c, hcw, hpv, -⟩ := hm2.mp hbit
        apply hp
        have h1 : (i + 1) * w ≤ h * w := Nat.mul_le_mul_right w (by omega)
        have h2 : (i + 1) * w = i * w + w := by ring
        omega
    obtain ⟨mw, mh, mb⟩ := m2
    simp only at hw2 hh2 hbits
    rw [Bitmap.ofFn, hw2, hh2, hbits]

/-- Witness for C1 at a concrete 6 × 2 pixel assignment. -/
theorem C1_bitmap_roundtrip_witness :
    6 ≤ 64 ∧
    ((encodeBitmap (Bitmap.ofFn 6 2 fun x y => [(1, 0), (2, 0), (3, 0), (0, 1)].contains (x, y))).map
        fun rows => decodeBitmap 6 2 rows)
      = some (.ok (Bitmap.ofFn 6 2 fun x y => [(1, 0), (2, 0), (3, 0), (0, 1)].contains (x, y))) :=
  ⟨by omega, C1_bitmap_roundtrip 6 2 _ (by omega)⟩

/-! ## Claim C6: end-of-stream inside a `BITMAP` row block -/

/-- C6 counterexample: a `BITMAP` record declaring height 2 followed by
only one row line at end of stream is returned as a successfully decoded
bitmap entry (with the missing row blank), not as an error. -/
theorem C6_truncated_rows_counterexample :
    (⟨0, ["BITMAP", "00"], none, some ⟨1, 2, 0, 0⟩⟩ : Reader).entry
      = .ok (.Bitmap ⟨1, 2, 0⟩) ⟨3, [], none, none⟩
    ∧ ∀ (e : Error) (r2 : Reader),
        (⟨0, ["BITMAP", "00"], none, some ⟨1, 2, 0, 0⟩⟩ : Reader).entry ≠ .err e r2 := by
  refine ⟨by decide, ?_⟩
  intro e r2 h
  rw [show (⟨0, ["BITMAP", "00"], none, some ⟨1, 2, 0, 0⟩⟩ : Reader).entry
      = .ok (.Bitmap ⟨1, 2, 0⟩) ⟨3, [], none, none⟩ from by decide] at h
  exact absurd h (by simp)

/-- C6 amended: when the stream ends inside a `BITMAP` row block (fewer
than `height` lines remain), `Reader::entry` swallows the end of stream:
the `take(height)` row iterator simply stops early, every remaining line
is consumed as a hex row, the line counter still advances by the full
declared `height`, and the call returns `Ok` with a bitmap of the
declared dimensions whose missing rows are left blank (all its set bits
lie in the rows that were actually present). -/
theorem C6_truncated_rows_swallowed (r : Reader) (rest : List String) (bb : BoundingBox)
    (hs : r.stream = "BITMAP" :: rest) (hc : r.current = some bb)
    (hlen : rest.length < bb.height)
    (hpar : ∀ s ∈ rest, (fromStrRadix16 s).isSome = true) :
    ∃ m, r.entry = .ok (.Bitmap m)
        { r with stream := [], line_number := r.line_number + 1 + bb.height, current := none }
      ∧ m.width = bb.width ∧ m.height = bb.height
      ∧ ∀ p, m.bits.testBit p = true → p < rest.length * bb.width := by
  have he := entry_cons hs (by decide)
  rw [dispatch_bitmap] at he
  unfold bitmapArm at he
  dsimp only at he
  rw [hc] at he
  dsimp only at he
  have hclear0 : ∀ p, (Bitmap.new bb.width bb.height).bits.testBit p = true
      → p < 0 * bb.width := by
    intro p hp
    rw [show (Bitmap.new bb.width bb.height).bits = 0 from rfl, Nat.zero_testBit] at hp
    exact absurd hp (by simp)
  obtain ⟨m2, hdec, hw2, hh2, hiff⟩ :=
    decodeRows_spec bb.width bb.height rest 0 (Bitmap.new bb.width bb.height) rfl rfl
      (by omega) hpar hclear0
  have hdecB : decodeBitmap bb.width bb.height rest = .ok m2 := by
    rw [decodeBitmap, List.take_of_length_le (le_of_lt hlen)]
    exact hdec
  refine ⟨m2, ?_, by simpa [Bitmap.new] using hw2, by simpa [Bitmap.new] using hh2, ?_⟩
  · rw [he]
    unfold bitmapWith
    dsimp only
    rw [hdecB]
    dsimp only
    rw [List.drop_eq_nil_of_le (le_of_lt hlen)]
  · intro p hp
    rcases (hiff p).mp hp with h0 | hr
    · rw [show (Bitmap.new bb.width bb.height).bits = 0 from rfl, Nat.zero_testBit] at h0
      exact absurd h0 (by simp)
    · have := (rowsBits_lt bb.width rest 0 p hr).2
      simpa using this

/-- Witness for the amended C6 at a concrete truncated stream. -/
theorem C6_truncated_rows_swallowed_witness :
    (["00"] : List String).length < (⟨1, 2, 0, 0⟩ : BoundingBox).height
    ∧ ∃ m, (⟨0, ["BITMAP", "00"], none, some ⟨1, 2, 0, 0⟩⟩ : Reader).entry
        = .ok (.Bitmap m) ⟨0 + 1 + (⟨1, 2, 0, 0⟩ : BoundingBox).height, [], none, none⟩
      ∧ m.width = (⟨1, 2, 0, 0⟩ : BoundingBox).width
      ∧ m.height = (⟨1, 2, 0, 0⟩ : BoundingBox).height
      ∧ ∀ p, m.bits.testBit p = true
          → p < (["00"] : List String).length * (⟨1, 2, 0, 0⟩ : BoundingBox).width :=
  ⟨by decide,
   C6_truncated_rows_swallowed ⟨0, ["BITMAP", "00"], none, some ⟨1, 2, 0, 0⟩⟩ ["00"]
     ⟨1, 2, 0, 0⟩ rfl rfl (by decide) (by decide)⟩

end Bdf
